import Mathlib

/-!
# Relay controller of the telescope theodolite: command parsing

Shallow embedding of `src/relay_control.cpp`.

Modelling conventions.

* An Arduino `String` is a finite sequence of characters; it is embedded as a
  Lean `String`, and the search runs over its list of characters.
* `String::indexOf(pattern)` and `String::charAt(i)` belong to the Arduino core,
  not to this repository.  They are embedded as the core implements them.
  `indexOf` returns `-1` on an empty text and otherwise calls the C function
  `strstr` on the two buffers, so it searches the text only up to its first NUL
  character and returns the index of the first occurrence of the pattern there,
  or `-1` when there is none.  `charAt` compares the index with the stored
  length: it returns the character at the index, also behind a NUL character,
  or the NUL character when the index is not below the length.
  A line is taken as a sequence of characters; the markers and the command
  characters are ASCII, so a search over characters and a search over the
  bytes of the same text find the same marker and read the same command.
* `HIGH` and `LOW` are the Arduino core constants `0x1` and `0x0`; stored in a
  `bool` field they are `true` and `false`.
-/

namespace RelayControl

/-- Arduino core constant `HIGH` (`0x1`), as it is stored in a `bool`. -/
def HIGH : Bool := true

/-- Arduino core constant `LOW` (`0x0`), as it is stored in a `bool`. -/
def LOW : Bool := false

/-- The `struct ControlState` of `relay_control.cpp`. -/
structure ControlState where
  az_cw : Bool
  az_ccw : Bool
  alt_up : Bool
  alt_down : Bool
deriving DecidableEq, Repr

/-- Scan for the first position at which `pat` starts, counting from `i`;
`-1` when the end of the text is reached. -/
def indexOfFrom (pat : List Char) : List Char → Nat → Int
  | [], _ => -1
  | c :: cs, i => if pat.isPrefixOf (c :: cs) then (i : Int) else indexOfFrom pat cs (i + 1)

/-- The C string held in a buffer: the characters before the first NUL. -/
def cstr (l : List Char) : List Char :=
  l.takeWhile (fun c => c != Char.ofNat 0)

/-- C `strstr(hay, needle)` on two C strings: the offset of the first
occurrence of `needle` in `hay`, which is `0` for the empty needle, or `-1`
for the null pointer returned when there is no occurrence. -/
def strstr (hay needle : List Char) : Int :=
  if needle = [] then 0 else indexOfFrom needle hay 0

/-- Arduino `String::indexOf(const String&)`: `-1` when the start index `0` is
not below the length of `s`, else the result of `strstr` on the buffers of `s`
and `pat`: the index of the first occurrence of `pat` in `s` before the first
NUL character of `s`, or `-1`. -/
def indexOf (s : String) (pat : String) : Int :=
  if s.data.length ≤ 0 then -1 else strstr (cstr s.data) (cstr pat.data)

/-- Arduino `String::charAt(unsigned int)`: the character at `loc`, or NUL
when `loc` is not below the length. -/
def charAt (s : String) (loc : Nat) : Char :=
  s.data.getD loc (Char.ofNat 0)

/-- The function `parseCommand` of `relay_control.cpp`.  The index passed to
`charAt` is `azIndex + 2` with `azIndex ≥ 0`, so its conversion to
`unsigned int` is the identity. -/
def parseCommand (command : String) : ControlState :=
  let state : ControlState := ⟨HIGH, HIGH, HIGH, HIGH⟩
  let azIndex := indexOf command "AZ"
  let state : ControlState :=
    if azIndex ≠ -1 then
      let azCmd := charAt command (azIndex + 2).toNat
      if azCmd = '1' then { state with az_cw := LOW, az_ccw := HIGH }
      else if azCmd = '2' then { state with az_cw := HIGH, az_ccw := LOW }
      else if azCmd = '0' then { state with az_cw := LOW, az_ccw := LOW }
      else state
    else state
  let elIndex := indexOf command "EL"
  let state : ControlState :=
    if elIndex ≠ -1 then
      let elCmd := charAt command (elIndex + 2).toNat
      if elCmd = '1' then { state with alt_up := HIGH, alt_down := LOW }
      else if elCmd = '2' then { state with alt_up := LOW, alt_down := HIGH }
      else if elCmd = '0' then { state with alt_up := LOW, alt_down := LOW }
      else state
    else state
  state

/-- The `if`/`else if` chain that `parseCommand` runs on the command character
`c` of one axis, as a function to the pair of levels of that axis: `pos` is the
pair written in the `'1'` branch, `neg` the pair written in the `'2'` branch,
`'0'` writes `(LOW, LOW)`, and any other character leaves the initial
`(HIGH, HIGH)`.  It is used to state the lemmas about the two axes. -/
def axisPair (pos neg : Bool × Bool) (c : Char) : Bool × Bool :=
  if c = '1' then pos else if c = '2' then neg else if c = '0' then (LOW, LOW) else (HIGH, HIGH)

/-- One axis block of `parseCommand`, as a function of the line: the pair of
levels of the axis whose marker is `marker`, with `pos` and `neg` as in
`axisPair`.  It is used to state the lemmas about the two axes. -/
def axisOf (marker : String) (pos neg : Bool × Bool) (s : String) : Bool × Bool :=
  if indexOf s marker ≠ -1 then
    axisPair pos neg (charAt s (indexOf s marker + 2).toNat)
  else (HIGH, HIGH)

/-- The text `sub` occurs somewhere in the line `s`. -/
def Contains (s sub : String) : Prop := sub.data <:+: s.data

instance (s sub : String) : Decidable (Contains s sub) := by
  unfold Contains
  infer_instance

/-- The first occurrence of `marker` in the line `s` is immediately followed
by the character `a`: the line splits as `p ++ marker ++ a :: q`, and no
occurrence of `marker` starts inside `p`. -/
def MarkerCode (marker s : String) (a : Char) : Prop :=
  ∃ p q : List Char, s.data = p ++ marker.data ++ a :: q ∧
    ¬ marker.data <:+: p ++ marker.data.dropLast

/-- The search for `marker` in the line `s` succeeds and the character read
after it is `a`: the first occurrence of `marker` in `s` is immediately followed
by `a`, and no NUL character stands before that occurrence. -/
def ReadCode (marker s : String) (a : Char) : Prop :=
  ∃ p q : List Char, s.data = p ++ marker.data ++ a :: q ∧
    ¬ marker.data <:+: p ++ marker.data.dropLast ∧ Char.ofNat 0 ∉ p

/-! ## The board: pins, serial port and the order of the calls

`pinMode`, `digitalWrite`, `delay` and the `Serial` object belong to the
Arduino core.  A board is embedded as the level last written to each pin
together with the sequence of core calls made so far, in the order in which
they were made; elapsed time is not modelled beyond the position of the
`delay` calls in that sequence. -/

/-- The pin modes of the Arduino core that the sketches use. -/
inductive PinMode where
  | INPUT
  | OUTPUT
deriving DecidableEq, Repr

/-- One call into the Arduino core. -/
inductive Event where
  | serialBegin (baud : Nat)
  | serialPrint (text : String)
  | serialPrintln (text : String)
  | pinMode (pin : Nat) (mode : PinMode)
  | digitalWrite (pin : Nat) (val : Bool)
  | delay (ms : Nat)
deriving DecidableEq, Repr

/-- The state of the board: the level last written to each pin, and the core
calls made so far. -/
structure Board where
  level : Nat → Bool
  trace : List Event

/-- A call that changes no pin level: it is appended to the sequence of calls. -/
def emit (e : Event) (b : Board) : Board :=
  { b with trace := b.trace ++ [e] }

/-- Arduino `digitalWrite(pin, val)`: the pin takes the level `val`. -/
def digitalWrite (pin : Nat) (val : Bool) (b : Board) : Board :=
  { level := fun q => if q = pin then val else b.level q,
    trace := b.trace ++ [Event.digitalWrite pin val] }

/-- The constant `AZ_CW_PIN` of `relay_control.cpp`. -/
def AZ_CW_PIN : Nat := 1

/-- The constant `AZ_CCW_PIN` of `relay_control.cpp`. -/
def AZ_CCW_PIN : Nat := 2

/-- The constant `ALT_UP_PIN` of `relay_control.cpp`. -/
def ALT_UP_PIN : Nat := 3

/-- The constant `ALT_DOWN_PIN` of `relay_control.cpp`. -/
def ALT_DOWN_PIN : Nat := 4

/-- The function `setup` of `relay_control.cpp`. -/
def setup (b : Board) : Board :=
  let b := emit (Event.serialBegin 115200) b
  let b := emit (Event.serialPrintln "Relay Control Initialized") b
  let b := emit (Event.pinMode AZ_CW_PIN PinMode.OUTPUT) b
  let b := emit (Event.pinMode AZ_CCW_PIN PinMode.OUTPUT) b
  let b := emit (Event.pinMode ALT_UP_PIN PinMode.OUTPUT) b
  let b := emit (Event.pinMode ALT_DOWN_PIN PinMode.OUTPUT) b
  let b := digitalWrite AZ_CW_PIN HIGH b
  let b := digitalWrite AZ_CCW_PIN HIGH b
  let b := digitalWrite ALT_UP_PIN HIGH b
  let b := digitalWrite ALT_DOWN_PIN HIGH b
  let b := emit (Event.serialPrintln "Resetting...") b
  let b := emit (Event.delay 5000) b
  let b := digitalWrite AZ_CW_PIN LOW b
  let b := digitalWrite AZ_CCW_PIN LOW b
  let b := digitalWrite ALT_UP_PIN LOW b
  let b := digitalWrite ALT_DOWN_PIN LOW b
  let b := emit (Event.serialPrintln "Reset complete.") b
  b

/-- The function `executeControl` of `relay_control.cpp`. -/
def executeControl (state : ControlState) (b : Board) : Board :=
  let b := digitalWrite AZ_CW_PIN state.az_cw b
  let b := digitalWrite AZ_CCW_PIN state.az_ccw b
  let b := digitalWrite ALT_UP_PIN state.alt_up b
  let b := digitalWrite ALT_DOWN_PIN state.alt_down b
  b

/-- The four writes of `executeControl`, in the order of its statements. -/
def controlWrites (state : ControlState) : List (Nat × Bool) :=
  [(AZ_CW_PIN, state.az_cw), (AZ_CCW_PIN, state.az_ccw),
    (ALT_UP_PIN, state.alt_up), (ALT_DOWN_PIN, state.alt_down)]

/-- The board after the first `k` of the four writes of `executeControl`:
`k = 0` is the board before the writes, `k = 4` the board after all of them,
and `k = 1, 2, 3` are the boards between two writes. -/
def executeControlUpTo (k : Nat) (state : ControlState) (b : Board) : Board :=
  ((controlWrites state).take k).foldl (fun acc w => digitalWrite w.1 w.2 acc) b

/-- C library `isspace` in the default locale: space, and the control
characters `\t`, `\n`, `\v`, `\f`, `\r` (codes 9 to 13). -/
def isspace (c : Char) : Bool :=
  c = ' ' || (9 ≤ c.toNat && c.toNat ≤ 13)

/-- Arduino `String::trim()`: the text without its leading and trailing
whitespace characters. -/
def trim (s : String) : String :=
  ⟨((s.data.dropWhile isspace).reverse.dropWhile isspace).reverse⟩

/-- One iteration of the function `loop` of `relay_control.cpp`.  The serial
port is the argument `input`: `none` when `Serial.available()` is `0`, and
`some line` when data is available and `Serial.readStringUntil` returns
`line`, the characters received before the newline. -/
def loop (input : Option String) (b : Board) : Board :=
  let b :=
    match input with
    | some line =>
      let command := trim line
      let b := emit (Event.serialPrint "Received command: ") b
      let b := emit (Event.serialPrintln command) b
      let state := parseCommand command
      executeControl state b
    | none => b
  emit (Event.delay 10) b

/-- The board of a loop iteration that processes `line`, after the echo of the
command and the first `k` of the four writes: `k = 0` is the board
immediately before the writes of the line. -/
def loopUpTo (k : Nat) (line : String) (b : Board) : Board :=
  executeControlUpTo k (parseCommand (trim line))
    (emit (Event.serialPrintln (trim line)) (emit (Event.serialPrint "Received command: ") b))

/-- A run of the sketch: `setup`, then one iteration of `loop` for each
received line, in arrival order. -/
def run (lines : List String) (b : Board) : Board :=
  lines.foldl (fun acc line => loop (some line) acc) (setup b)

/-! ## Reference definition of the parse, in the words of the specification -/

/-- The character immediately after the first occurrence of `marker` in the
text; `none` when the marker does not occur or its first occurrence ends the
text. -/
def codeAfterFirst (marker : List Char) : List Char → Option Char
  | [] => none
  | c :: cs =>
    if marker.isPrefixOf (c :: cs) then ((c :: cs).drop marker.length).head?
    else codeAfterFirst marker cs

/-- Reference table of the azimuth pair `(az_cw, az_ccw)` for the character
after the first `AZ`. -/
def azPairRef : Option Char → Bool × Bool
  | some '1' => (false, true)
  | some '2' => (true, false)
  | some '0' => (false, false)
  | _ => (true, true)

/-- Reference table of the elevation pair `(alt_up, alt_down)` for the
character after the first `EL`. -/
def elPairRef : Option Char → Bool × Bool
  | some '1' => (true, false)
  | some '2' => (false, true)
  | some '0' => (false, false)
  | _ => (true, true)

/-- Reference definition of `parseCommand`: each axis pair is read from the
character after the first occurrence of its marker. -/
def parseCommandRef (s : String) : ControlState :=
  let az := azPairRef (codeAfterFirst "AZ".data s.data)
  let el := elPairRef (codeAfterFirst "EL".data s.data)
  ⟨az.1, az.2, el.1, el.2⟩

end RelayControl

/-! # The LED sketch

Shallow embedding of `src/esp32_gpio_demo.cpp`, over the same board. -/

namespace GpioDemo

open RelayControl

/-- The constant `LED` of `esp32_gpio_demo.cpp`. -/
def LED : Nat := 2

/-- The function `setup` of `esp32_gpio_demo.cpp`. -/
def setup (b : Board) : Board :=
  let b := emit (Event.serialBegin 115200) b
  let b := emit (Event.serialPrintln "Hello, XianLin") b
  let b := emit (Event.pinMode LED PinMode.OUTPUT) b
  b

/-- One iteration of the function `loop` of `esp32_gpio_demo.cpp`.  The
serial port is the argument `input`: `none` when `Serial.available()` is `0`,
and `some byte` when `Serial.read()` returns `byte`, which is stored in a
`char` (eight bits). -/
def loop (input : Option Nat) (b : Board) : Board :=
  match input with
  | some byte =>
    let incomingByte := byte % 256
    let b := emit (Event.serialPrint "Received message: ") b
    let b := emit (Event.serialPrintln (String.singleton (Char.ofNat incomingByte))) b
    if incomingByte = 49 then
      let b := emit (Event.serialPrintln "开灯") b
      digitalWrite LED HIGH b
    else if incomingByte = 48 then
      let b := emit (Event.serialPrintln "关灯") b
      digitalWrite LED LOW b
    else b
  | none => b

end GpioDemo

namespace RelayControl

/-! ## Facts about the search -/

theorem indexOfFrom_absent (pat : List Char) (s : List Char) (i : Nat)
    (h : ¬ pat <:+: s) : indexOfFrom pat s i = -1 := by
  induction s generalizing i with
  | nil => rfl
  | cons c cs ih =>
    unfold indexOfFrom
    have h1 : pat.isPrefixOf (c :: cs) = false := by
      rw [Bool.eq_false_iff]
      intro hp
      exact h (List.isPrefixOf_iff_prefix.mp hp).isInfix
    rw [h1]
    simp only [Bool.false_eq_true, if_false]
    apply ih
    intro hin
    exact h (hin.trans (List.suffix_cons c cs).isInfix)

theorem indexOfFrom_first (pat p rest : List Char) (i : Nat) (hne : pat ≠ [])
    (h : ¬ pat <:+: p ++ pat.dropLast) :
    indexOfFrom pat (p ++ pat ++ rest) i = (i : Int) + p.length := by
  induction p generalizing i with
  | nil =>
    obtain ⟨x, xs, rfl⟩ := List.exists_cons_of_ne_nil hne
    have hp : (x :: xs).isPrefixOf (x :: xs ++ rest) = true :=
      List.isPrefixOf_iff_prefix.mpr (List.prefix_append _ _)
    simp only [List.nil_append, List.cons_append, List.length_nil, Nat.cast_zero, add_zero]
    unfold indexOfFrom
    rw [← List.cons_append, hp]
    simp
  | cons c cs ih =>
    have hlen : pat.length ≤ (c :: cs ++ pat.dropLast).length := by
      simp only [List.length_append, List.length_cons, List.length_dropLast]
      omega
    have hp : pat.isPrefixOf (c :: (cs ++ pat ++ rest)) = false := by
      rw [Bool.eq_false_iff]
      intro hp
      have h1 : pat <+: c :: cs ++ pat ++ rest := by
        simpa using List.isPrefixOf_iff_prefix.mp hp
      have h2 : c :: cs ++ pat.dropLast <+: c :: cs ++ pat ++ rest := by
        rw [List.append_assoc]
        exact (List.prefix_append_right_inj _).mpr
          ((List.dropLast_prefix pat).trans (List.prefix_append _ _))
      exact h (List.prefix_of_prefix_length_le h1 h2 hlen).isInfix
    have hrec : ¬ pat <:+: cs ++ pat.dropLast := fun hin =>
      h (hin.trans (List.suffix_cons c _).isInfix)
    simp only [List.cons_append]
    unfold indexOfFrom
    rw [hp]
    simp only [Bool.false_eq_true, if_false]
    rw [ih (i + 1) hrec]
    simp only [List.length_cons]
    push_cast
    ring

theorem indexOfFrom_found (pat : List Char) (s : List Char) (i : Nat)
    (hne : pat ≠ []) (h : indexOfFrom pat s i ≠ -1) :
    ∃ p rest, s = p ++ pat ++ rest ∧ ¬ pat <:+: p ++ pat.dropLast := by
  induction s generalizing i with
  | nil => exact absurd rfl h
  | cons c cs ih =>
    unfold indexOfFrom at h
    by_cases hp : pat.isPrefixOf (c :: cs) = true
    · obtain ⟨rest, hrest⟩ := List.isPrefixOf_iff_prefix.mp hp
      refine ⟨[], rest, by simpa using hrest.symm, ?_⟩
      intro hin
      have := hin.length_le
      have := List.length_pos.mpr hne
      simp only [List.nil_append, List.length_dropLast] at *
      omega
    · rw [if_neg hp] at h
      obtain ⟨p, rest, hs, hfirst⟩ := ih (i + 1) h
      refine ⟨c :: p, rest, by simp [hs], ?_⟩
      intro hin
      rcases List.infix_cons_iff.mp hin with hpre | hin2
      · apply hp
        apply List.isPrefixOf_iff_prefix.mpr
        rw [hs]
        have h2 : c :: (p ++ pat.dropLast) <+: c :: (p ++ pat ++ rest) := by
          rw [List.append_assoc]
          exact (List.prefix_cons_inj c).mpr ((List.prefix_append_right_inj _).mpr
            ((List.dropLast_prefix pat).trans (List.prefix_append _ _)))
        exact hpre.trans h2
      · exact hfirst hin2

theorem indexOfFrom_absent_conv (pat : List Char) (s : List Char) (i : Nat)
    (hne : pat ≠ []) (h : indexOfFrom pat s i = -1) : ¬ pat <:+: s := by
  induction s generalizing i with
  | nil =>
    intro hin
    exact hne (List.eq_nil_of_infix_nil hin)
  | cons c cs ih =>
    unfold indexOfFrom at h
    by_cases hp : pat.isPrefixOf (c :: cs) = true
    · rw [if_pos hp] at h
      omega
    · rw [if_neg hp] at h
      intro hin
      rcases List.infix_cons_iff.mp hin with hpre | hin2
      · exact hp (List.isPrefixOf_iff_prefix.mpr hpre)
      · exact ih (i + 1) h hin2

theorem infix_pair_drop_left (x y : Char) (u l : List Char) (hu : x ∉ u)
    (h : [x, y] <:+: u ++ l) : [x, y] <:+: l := by
  induction u with
  | nil => simpa using h
  | cons c cs ih =>
    rw [List.cons_append] at h
    rcases List.infix_cons_iff.mp h with hpre | hin
    · exfalso
      obtain ⟨r, hr⟩ := hpre
      simp only [List.cons_append, List.cons.injEq] at hr
      exact hu (hr.1 ▸ List.mem_cons_self _ _)
    · exact ih (fun hx => hu (List.mem_cons_of_mem _ hx)) hin

theorem infix_pair_drop_right (x y : Char) (l v : List Char) (hv : y ∉ v)
    (h : [x, y] <:+: l ++ v) : [x, y] <:+: l := by
  have h1 : [y, x] <:+: v.reverse ++ l.reverse := by
    have := List.reverse_infix.mpr h
    simpa using this
  have h2 := infix_pair_drop_left y x v.reverse l.reverse (by simpa using hv) h1
  have := List.reverse_infix.mpr h2
  simpa using this

theorem axisPair_other (pos neg : Bool × Bool) (c : Char) (hc : c ∉ ['0', '1', '2']) :
    axisPair pos neg c = (HIGH, HIGH) := by
  simp only [List.mem_cons, List.mem_singleton, List.not_mem_nil, or_false, not_or] at hc
  unfold axisPair
  rw [if_neg hc.2.1, if_neg hc.2.2, if_neg hc.1]

theorem axisPair_both (pos neg : Bool × Bool) (hpos : pos ≠ (true, true))
    (hneg : neg ≠ (true, true)) (c : Char) :
    axisPair pos neg c = (true, true) ↔ c ∉ ['0', '1', '2'] := by
  unfold axisPair
  constructor
  · intro h hc
    simp only [List.mem_cons, List.mem_singleton, List.not_mem_nil, or_false] at hc
    rcases hc with rfl | rfl | rfl
    · rw [if_neg (by decide), if_neg (by decide), if_pos rfl] at h
      exact absurd h (by decide)
    · rw [if_pos rfl] at h; exact hpos h
    · rw [if_neg (by decide), if_pos rfl] at h; exact hneg h
  · intro hc
    simp only [List.mem_cons, List.mem_singleton, List.not_mem_nil, or_false, not_or] at hc
    rw [if_neg hc.2.1, if_neg hc.2.2, if_neg hc.1]
    rfl

theorem not_infix_pair (x y : Char) (l : List Char) (h : y ∉ l) : ¬ [x, y] <:+: l := by
  intro hin
  exact h (hin.subset (by simp))

theorem state_eq_of_pairs (x y : ControlState)
    (haz : (x.az_cw, x.az_ccw) = (y.az_cw, y.az_ccw))
    (hel : (x.alt_up, x.alt_down) = (y.alt_up, y.alt_down)) : x = y := by
  cases x
  cases y
  simp only [Prod.mk.injEq] at haz hel
  simp only [ControlState.mk.injEq]
  exact ⟨haz.1, haz.2, hel.1, hel.2⟩

theorem first_of_absent (x y : Char) (p : List Char) (hxy : y ≠ x)
    (h : ¬ [x, y] <:+: p) : ¬ [x, y] <:+: p ++ [x, y].dropLast := by
  intro hin
  apply h
  apply infix_pair_drop_right x y p [x] _ hin
  simpa using hxy

/-! ## Facts about the C string of a line -/

theorem cstr_initial (l : List Char) : cstr l <+: l :=
  List.takeWhile_prefix _

theorem cstr_not_mem (l : List Char) : Char.ofNat 0 ∉ cstr l := by
  intro h
  have := List.mem_takeWhile_imp h
  simp at this

theorem cstr_eq_self (l : List Char) (h : Char.ofNat 0 ∉ l) : cstr l = l := by
  unfold cstr
  rw [List.takeWhile_eq_self_iff]
  intro c hc
  simp only [bne_iff_ne, ne_eq]
  rintro rfl
  exact h hc

theorem cstr_append_of_not_mem (u l : List Char) (h : Char.ofNat 0 ∉ u) :
    cstr (u ++ l) = u ++ cstr l := by
  induction u with
  | nil => rfl
  | cons c cs ih =>
    have hc : (c != Char.ofNat 0) = true := by
      simp only [bne_iff_ne, ne_eq]
      rintro rfl
      exact h (List.mem_cons_self _ _)
    have ih2 := ih (fun hm => h (List.mem_cons_of_mem _ hm))
    unfold cstr at ih2 ⊢
    simp only [List.cons_append, List.takeWhile_cons, hc, if_true, ih2]

theorem cstr_append_of_mem (l v : List Char) (h : Char.ofNat 0 ∈ l) :
    cstr (l ++ v) = cstr l := by
  induction l with
  | nil => exact absurd h (List.not_mem_nil _)
  | cons c cs ih =>
    by_cases hc : c = Char.ofNat 0
    · subst hc
      rfl
    · have hc2 : (c != Char.ofNat 0) = true := by simpa using hc
      have hmem : Char.ofNat 0 ∈ cs := by
        rcases List.mem_cons.mp h with h1 | h1
        · exact absurd h1.symm hc
        · exact h1
      have ih2 := ih hmem
      unfold cstr at ih2 ⊢
      simp only [List.cons_append, List.takeWhile_cons, hc2, if_true, ih2]

/-! ## The search of a marker in a line -/

theorem indexOf_eq (s marker : String) (hne : marker.data ≠ [])
    (hc : cstr marker.data = marker.data) :
    indexOf s marker = indexOfFrom marker.data (cstr s.data) 0 := by
  unfold indexOf strstr
  rw [hc, if_neg hne]
  split
  · rename_i h
    have h0 : s.data = [] := List.length_eq_zero.mp (Nat.le_zero.mp h)
    rw [h0]
    rfl
  · rfl

theorem marker_not_nul (marker : String) (hc : cstr marker.data = marker.data) :
    Char.ofNat 0 ∉ marker.data := by
  rw [← hc]
  exact cstr_not_mem _

theorem indexOf_absent (s marker : String) (hne : marker.data ≠ [])
    (hc : cstr marker.data = marker.data) (h : ¬ Contains s marker) :
    indexOf s marker = -1 := by
  rw [indexOf_eq s marker hne hc]
  apply indexOfFrom_absent
  intro hin
  exact h (hin.trans (cstr_initial _).isInfix)

theorem indexOf_first (marker s : String) (p rest : List Char) (hne : marker.data ≠ [])
    (hc : cstr marker.data = marker.data)
    (hs : s.data = p ++ marker.data ++ rest)
    (hfirst : ¬ marker.data <:+: p ++ marker.data.dropLast)
    (hp : Char.ofNat 0 ∉ p) :
    indexOf s marker = (p.length : Int) := by
  rw [indexOf_eq s marker hne hc, hs, List.append_assoc, cstr_append_of_not_mem _ _ hp,
    cstr_append_of_not_mem _ _ (marker_not_nul marker hc), ← List.append_assoc,
    indexOfFrom_first _ _ _ _ hne hfirst]
  simp

theorem indexOf_nul_before (marker s : String) (p rest : List Char) (hne : marker.data ≠ [])
    (hc : cstr marker.data = marker.data)
    (hs : s.data = p ++ marker.data ++ rest)
    (hfirst : ¬ marker.data <:+: p ++ marker.data.dropLast)
    (hp : Char.ofNat 0 ∈ p) :
    indexOf s marker = -1 := by
  rw [indexOf_eq s marker hne hc, hs, List.append_assoc, cstr_append_of_mem _ _ hp]
  apply indexOfFrom_absent
  intro hin
  exact hfirst ((hin.trans (cstr_initial p).isInfix).trans (List.prefix_append _ _).isInfix)

theorem indexOf_found (s marker : String) (hne : marker.data ≠ [])
    (hc : cstr marker.data = marker.data) (h : indexOf s marker ≠ -1) :
    ∃ p rest, s.data = p ++ marker.data ++ rest ∧
      ¬ marker.data <:+: p ++ marker.data.dropLast ∧ Char.ofNat 0 ∉ p ∧
      indexOf s marker = (p.length : Int) := by
  have h1 := h
  rw [indexOf_eq s marker hne hc] at h1
  obtain ⟨p, r, hr, hfirst⟩ := indexOfFrom_found _ _ _ hne h1
  obtain ⟨d, hd⟩ := cstr_initial s.data
  have hp : Char.ofNat 0 ∉ p := by
    intro hm
    apply cstr_not_mem s.data
    rw [hr]
    exact List.mem_append_left _ (List.mem_append_left _ hm)
  have hs : s.data = p ++ marker.data ++ (r ++ d) := by
    rw [← hd, hr]
    simp
  exact ⟨p, r ++ d, hs, hfirst, hp, indexOf_first marker s p (r ++ d) hne hc hs hfirst hp⟩

theorem charAt_after (s : String) (p m rest : List Char)
    (hs : s.data = p ++ m ++ rest) :
    charAt s ((p.length : Int) + (m.length : Int)).toNat = rest.headD (Char.ofNat 0) := by
  unfold charAt
  have : ((p.length : Int) + (m.length : Int)).toNat = (p ++ m).length := by
    simp only [List.length_append]
    omega
  rw [this, hs, List.getD_eq_getElem?_getD, List.getElem?_append_right (le_refl _)]
  cases rest <;> simp

theorem readCode_index (marker s : String) (a : Char) (hne : marker.data ≠ [])
    (hc : cstr marker.data = marker.data) (h : ReadCode marker s a) :
    indexOf s marker ≠ -1 ∧
      charAt s (indexOf s marker + marker.data.length).toNat = a := by
  obtain ⟨p, q, hs, hfirst, hp⟩ := h
  have hidx := indexOf_first marker s p (a :: q) hne hc hs hfirst hp
  refine ⟨by rw [hidx]; omega, ?_⟩
  rw [hidx, charAt_after s p marker.data (a :: q) hs]
  rfl

theorem markerEnd_index (marker s : String) (p : List Char) (hne : marker.data ≠ [])
    (hc : cstr marker.data = marker.data)
    (hs : s.data = p ++ marker.data) (hfirst : ¬ marker.data <:+: p ++ marker.data.dropLast)
    (hp : Char.ofNat 0 ∉ p) :
    indexOf s marker ≠ -1 ∧
      charAt s (indexOf s marker + marker.data.length).toNat = Char.ofNat 0 := by
  have hs2 : s.data = p ++ marker.data ++ [] := by rw [hs, List.append_nil]
  have hidx := indexOf_first marker s p [] hne hc hs2 hfirst hp
  refine ⟨by rw [hidx]; omega, ?_⟩
  rw [hidx, charAt_after s p marker.data [] hs2]
  rfl

/-! ## The two axes of `parseCommand`, read off the command character -/

theorem parseCommand_az (s : String) :
    ((parseCommand s).az_cw, (parseCommand s).az_ccw) =
      if indexOf s "AZ" ≠ -1 then
        axisPair (LOW, HIGH) (HIGH, LOW) (charAt s (indexOf s "AZ" + 2).toNat)
      else (HIGH, HIGH) := by
  unfold parseCommand axisPair
  simp only
  split_ifs <;> rfl

theorem parseCommand_el (s : String) :
    ((parseCommand s).alt_up, (parseCommand s).alt_down) =
      if indexOf s "EL" ≠ -1 then
        axisPair (HIGH, LOW) (LOW, HIGH) (charAt s (indexOf s "EL" + 2).toNat)
      else (HIGH, HIGH) := by
  unfold parseCommand axisPair
  simp only
  split_ifs <;> rfl

theorem parseCommand_az_axisOf (s : String) :
    ((parseCommand s).az_cw, (parseCommand s).az_ccw)
      = axisOf "AZ" (LOW, HIGH) (HIGH, LOW) s :=
  parseCommand_az s

theorem parseCommand_el_axisOf (s : String) :
    ((parseCommand s).alt_up, (parseCommand s).alt_down)
      = axisOf "EL" (HIGH, LOW) (LOW, HIGH) s :=
  parseCommand_el s

theorem axisOf_code (marker : String) (pos neg : Bool × Bool) (s : String) (a : Char)
    (hlen : marker.data.length = 2) (hc : cstr marker.data = marker.data)
    (h : ReadCode marker s a) :
    axisOf marker pos neg s = axisPair pos neg a := by
  have hne : marker.data ≠ [] := by
    intro h0; rw [h0] at hlen; exact absurd hlen (by decide)
  obtain ⟨hi, hr⟩ := readCode_index marker s a hne hc h
  unfold axisOf
  rw [if_pos hi]
  have : (indexOf s marker + 2) = indexOf s marker + (marker.data.length : Int) := by
    rw [hlen]; rfl
  rw [this, hr]

theorem axisOf_end (marker : String) (pos neg : Bool × Bool) (s : String) (p : List Char)
    (hlen : marker.data.length = 2) (hc : cstr marker.data = marker.data)
    (hs : s.data = p ++ marker.data)
    (hfirst : ¬ marker.data <:+: p ++ marker.data.dropLast) (hp : Char.ofNat 0 ∉ p) :
    axisOf marker pos neg s = (HIGH, HIGH) := by
  have hne : marker.data ≠ [] := by
    intro h0; rw [h0] at hlen; exact absurd hlen (by decide)
  obtain ⟨hi, hr⟩ := markerEnd_index marker s p hne hc hs hfirst hp
  unfold axisOf
  rw [if_pos hi]
  have : (indexOf s marker + 2) = indexOf s marker + (marker.data.length : Int) := by
    rw [hlen]; rfl
  rw [this, hr]
  exact axisPair_other pos neg _ (by decide)

theorem axisOf_not_found (marker : String) (pos neg : Bool × Bool) (s : String)
    (h : indexOf s marker = -1) : axisOf marker pos neg s = (HIGH, HIGH) := by
  unfold axisOf
  rw [if_neg (not_not.mpr h)]

theorem axisOf_absent (marker : String) (pos neg : Bool × Bool) (s : String)
    (hne : marker.data ≠ []) (hc : cstr marker.data = marker.data)
    (h : ¬ Contains s marker) : axisOf marker pos neg s = (HIGH, HIGH) :=
  axisOf_not_found marker pos neg s (indexOf_absent s marker hne hc h)

/-- An axis whose first marker is followed by a character other than `'0'`,
`'1'`, `'2'` keeps the initial pair, with or without a NUL before the
marker. -/
theorem axisOf_markerCode_other (marker : String) (pos neg : Bool × Bool) (s : String)
    (a : Char) (hlen : marker.data.length = 2) (hc : cstr marker.data = marker.data)
    (h : MarkerCode marker s a) (ha : a ∉ ['0', '1', '2']) :
    axisOf marker pos neg s = (HIGH, HIGH) := by
  have hne : marker.data ≠ [] := by
    intro h0; rw [h0] at hlen; exact absurd hlen (by decide)
  obtain ⟨p, q, hs, hfirst⟩ := h
  by_cases hp : Char.ofNat 0 ∈ p
  · exact axisOf_not_found marker pos neg s
      (indexOf_nul_before marker s p (a :: q) hne hc hs hfirst hp)
  · rw [axisOf_code marker pos neg s a hlen hc ⟨p, q, hs, hfirst, hp⟩]
    exact axisPair_other pos neg a ha

/-- Every line is in one of three cases for a marker: the search fails, the
marker found ends the line, or the marker found is followed by a character. -/
theorem marker_cases (marker s : String) (hne : marker.data ≠ [])
    (hc : cstr marker.data = marker.data) :
    indexOf s marker = -1 ∨
    (∃ p, s.data = p ++ marker.data ∧ ¬ marker.data <:+: p ++ marker.data.dropLast ∧
      Char.ofNat 0 ∉ p) ∨
    (∃ a, ReadCode marker s a) := by
  by_cases hi : indexOf s marker = -1
  · left
    exact hi
  · right
    obtain ⟨p, rest, hs, hfirst, hp, _⟩ := indexOf_found s marker hne hc hi
    cases rest with
    | nil => left; exact ⟨p, by simpa using hs, hfirst, hp⟩
    | cons a q => right; exact ⟨a, p, q, hs, hfirst, hp⟩

theorem az_of_code (s : String) (a : Char) (h : ReadCode "AZ" s a) :
    ((parseCommand s).az_cw, (parseCommand s).az_ccw)
      = axisPair (false, true) (true, false) a := by
  rw [parseCommand_az_axisOf, axisOf_code "AZ" _ _ s a rfl rfl h]
  rfl

theorem el_of_code (s : String) (a : Char) (h : ReadCode "EL" s a) :
    ((parseCommand s).alt_up, (parseCommand s).alt_down)
      = axisPair (true, false) (false, true) a := by
  rw [parseCommand_el_axisOf, axisOf_code "EL" _ _ s a rfl rfl h]
  rfl

theorem az_of_absent (s : String) (h : ¬ Contains s "AZ") :
    ((parseCommand s).az_cw, (parseCommand s).az_ccw) = (true, true) := by
  rw [parseCommand_az_axisOf, axisOf_absent "AZ" _ _ s (by decide) rfl h]
  rfl

theorem el_of_absent (s : String) (h : ¬ Contains s "EL") :
    ((parseCommand s).alt_up, (parseCommand s).alt_down) = (true, true) := by
  rw [parseCommand_el_axisOf, axisOf_absent "EL" _ _ s (by decide) rfl h]
  rfl

/-- Both levels of an axis are `true` exactly when no recognised command
character is read after the axis marker. -/
theorem pair_both_iff (marker s : String) (pos neg : Bool × Bool)
    (hlen : marker.data.length = 2) (hc : cstr marker.data = marker.data)
    (hpos : pos ≠ (true, true)) (hneg : neg ≠ (true, true)) :
    axisOf marker pos neg s = (true, true) ↔
      ¬ ∃ a, a ∈ ['0', '1', '2'] ∧ ReadCode marker s a := by
  have hne : marker.data ≠ [] := by
    intro h0; rw [h0] at hlen; exact absurd hlen (by decide)
  constructor
  · rintro h ⟨a, ha, hm⟩
    rw [axisOf_code marker pos neg s a hlen hc hm] at h
    exact (axisPair_both pos neg hpos hneg a).mp h ha
  · intro h
    rcases marker_cases marker s hne hc with hi | ⟨p, hs, hfirst, hp⟩ | ⟨a, hm⟩
    · exact axisOf_not_found marker pos neg s hi
    · exact axisOf_end marker pos neg s p hlen hc hs hfirst hp
    · rw [axisOf_code marker pos neg s a hlen hc hm]
      exact axisPair_other pos neg a (fun ha => h ⟨a, ha, hm⟩)

/-! ## One axis under padding of the line -/

theorem cstr_pad (u l v : List Char) (hu : Char.ofNat 0 ∉ u) :
    ∃ w, w <+: v ∧ cstr (u ++ l ++ v) = u ++ cstr l ++ w := by
  by_cases hl : Char.ofNat 0 ∈ l
  · refine ⟨[], List.nil_prefix, ?_⟩
    rw [List.append_assoc, cstr_append_of_not_mem _ _ hu, cstr_append_of_mem _ _ hl]
    simp
  · refine ⟨cstr v, cstr_initial v, ?_⟩
    rw [List.append_assoc, cstr_append_of_not_mem _ _ hu, cstr_append_of_not_mem _ _ hl,
      cstr_eq_self l hl]
    simp

/-- Characters put before and after a line do not change an axis, as long
as they are no letter of its marker and no command character, and no NUL
character is put before the line. -/
theorem axisOf_pad (marker : String) (x y : Char) (hm : marker.data = [x, y])
    (hc : cstr marker.data = marker.data)
    (pos neg : Bool × Bool) (s t : String) (u v : List Char)
    (hs : s.data = u ++ t.data ++ v) (hu : x ∉ u) (hu0 : Char.ofNat 0 ∉ u) (hv : y ∉ v)
    (hv2 : ∀ c ∈ v, c ∉ ['0', '1', '2']) :
    axisOf marker pos neg s = axisOf marker pos neg t := by
  have hlen : marker.data.length = 2 := by rw [hm]; rfl
  have hne : marker.data ≠ [] := by rw [hm]; exact List.cons_ne_nil _ _
  have hfirst_pad : ∀ p, ¬ marker.data <:+: p ++ marker.data.dropLast →
      ¬ marker.data <:+: (u ++ p) ++ marker.data.dropLast := by
    intro p hp hin
    rw [hm] at hp hin
    rw [List.append_assoc] at hin
    exact hp (infix_pair_drop_left x y u _ hu hin)
  have hnul_pad : ∀ p, Char.ofNat 0 ∉ p → Char.ofNat 0 ∉ u ++ p := by
    intro p hp hmem
    rcases List.mem_append.mp hmem with h1 | h1
    · exact hu0 h1
    · exact hp h1
  rcases marker_cases marker t hne hc with hi | ⟨p, ht, hfirst, hp⟩ | ⟨a, p, q, ht, hfirst, hp⟩
  · rw [axisOf_not_found marker pos neg t hi]
    apply axisOf_not_found
    rw [indexOf_eq t marker hne hc] at hi
    have habs := indexOfFrom_absent_conv _ _ _ hne hi
    rw [indexOf_eq s marker hne hc, hs]
    obtain ⟨w, hw, hcs⟩ := cstr_pad u t.data v hu0
    rw [hcs]
    apply indexOfFrom_absent
    intro hin
    rw [hm, List.append_assoc] at hin
    rw [hm] at habs
    have hyw : y ∉ w := fun hy => hv (hw.subset hy)
    exact habs (infix_pair_drop_right x y _ w hyw (infix_pair_drop_left x y u _ hu hin))
  · rw [axisOf_end marker pos neg t p hlen hc ht hfirst hp]
    cases v with
    | nil =>
      apply axisOf_end marker pos neg s (u ++ p) hlen hc _ (hfirst_pad p hfirst)
        (hnul_pad p hp)
      rw [hs, ht]
      simp
    | cons b v1 =>
      have hmc : ReadCode marker s b :=
        ⟨u ++ p, v1, by rw [hs, ht]; simp, hfirst_pad p hfirst, hnul_pad p hp⟩
      rw [axisOf_code marker pos neg s b hlen hc hmc]
      exact axisPair_other pos neg b (hv2 b (List.mem_cons_self _ _))
  · have hmt : ReadCode marker t a := ⟨p, q, ht, hfirst, hp⟩
    have hms : ReadCode marker s a :=
      ⟨u ++ p, q ++ v, by rw [hs, ht]; simp, hfirst_pad p hfirst, hnul_pad p hp⟩
    rw [axisOf_code marker pos neg s a hlen hc hms, axisOf_code marker pos neg t a hlen hc hmt]

/-- Padding that touches neither marker, holds no command character and
puts no NUL character before the line does not change the parse. -/
theorem parseCommand_pad (s t : String) (u v : List Char)
    (hs : s.data = u ++ t.data ++ v)
    (hu : ∀ c ∈ u, c ∉ ['A', 'E', Char.ofNat 0])
    (hv : ∀ c ∈ v, c ∉ ['Z', 'L'] ∧ c ∉ ['0', '1', '2']) :
    parseCommand s = parseCommand t := by
  apply state_eq_of_pairs
  · rw [parseCommand_az_axisOf, parseCommand_az_axisOf]
    exact axisOf_pad "AZ" 'A' 'Z' rfl rfl _ _ s t u v hs
      (fun h => hu _ h (by decide)) (fun h => hu _ h (by decide))
      (fun h => (hv _ h).1 (by decide)) (fun c h => (hv c h).2)
  · rw [parseCommand_el_axisOf, parseCommand_el_axisOf]
    exact axisOf_pad "EL" 'E' 'L' rfl rfl _ _ s t u v hs
      (fun h => hu _ h (by decide)) (fun h => hu _ h (by decide))
      (fun h => (hv _ h).1 (by decide)) (fun c h => (hv c h).2)

/-! ## Claims about `parseCommand` -/

/-- C1 (as the code has it): the two fields of an axis pair are both `true`
exactly when no recognised command is read after that axis's marker, that is
when the marker is absent, has a NUL character before its first occurrence,
ends the line, or is followed by a character other than `'0'`, `'1'`, `'2'`.
So on every line whose first `AZ` marker, with no NUL character before it, is
followed by `'0'`, `'1'` or `'2'` the fields `az_cw` and `az_ccw` are not both
`true`, and likewise `alt_up` and `alt_down` for `EL`. -/
theorem parseCommand_pair_both_iff (s : String) :
    (((parseCommand s).az_cw = true ∧ (parseCommand s).az_ccw = true) ↔
        ¬ ∃ a, a ∈ ['0', '1', '2'] ∧ ReadCode "AZ" s a) ∧
    (((parseCommand s).alt_up = true ∧ (parseCommand s).alt_down = true) ↔
        ¬ ∃ a, a ∈ ['0', '1', '2'] ∧ ReadCode "EL" s a) := by
  constructor
  · rw [← pair_both_iff "AZ" s (LOW, HIGH) (HIGH, LOW) rfl rfl (by decide) (by decide),
      ← parseCommand_az_axisOf, Prod.mk.injEq]
  · rw [← pair_both_iff "EL" s (HIGH, LOW) (LOW, HIGH) rfl rfl (by decide) (by decide),
      ← parseCommand_el_axisOf, Prod.mk.injEq]

/-- C1, as stated, fails on the empty line: all four fields are `true`
there, so both axis pairs have both fields asserted. -/
theorem parseCommand_empty_both_asserted :
    ((parseCommand "").az_cw = true ∧ (parseCommand "").az_ccw = true) ∧
    ((parseCommand "").alt_up = true ∧ (parseCommand "").alt_down = true) := by
  decide

/-- C2 (what the code does by design): on every line in which the first
occurrence of `AZ` is immediately followed by `'1'` and no NUL character stands
before it, the azimuth pair is the pair of the line `AZ1` alone, whatever else
is in the line, and exactly one of `az_cw`, `az_ccw` is `true`; the line
`AZ1EL0` has such an azimuth pair and both elevation fields `false`.  Which of
the two azimuth fields is the `true` one is not part of this statement. -/
theorem parseCommand_AZ1 :
    (∀ s : String, ReadCode "AZ" s '1' →
      ((parseCommand s).az_cw, (parseCommand s).az_ccw)
        = ((parseCommand "AZ1").az_cw, (parseCommand "AZ1").az_ccw) ∧
      (parseCommand s).az_cw ≠ (parseCommand s).az_ccw) ∧
    ((parseCommand "AZ1EL0").az_cw ≠ (parseCommand "AZ1EL0").az_ccw ∧
      (parseCommand "AZ1EL0").alt_up = false ∧ (parseCommand "AZ1EL0").alt_down = false) := by
  refine ⟨fun s h => ?_, by decide⟩
  have h1 := az_of_code s '1' h
  have h2 := az_of_code "AZ1" '1' ⟨[], [], rfl, by decide, by simp⟩
  refine ⟨h1.trans h2.symm, ?_⟩
  rw [Prod.ext_iff] at h1
  have hx : (parseCommand s).az_cw = false := h1.1
  have hy : (parseCommand s).az_ccw = true := h1.2
  rw [hx, hy]
  decide

/-- C2 applied to the line `AZ1EL0`. -/
theorem parseCommand_AZ1_witness :
    ReadCode "AZ" "AZ1EL0" '1' ∧
      (((parseCommand "AZ1EL0").az_cw, (parseCommand "AZ1EL0").az_ccw)
        = ((parseCommand "AZ1").az_cw, (parseCommand "AZ1").az_ccw) ∧
      (parseCommand "AZ1EL0").az_cw ≠ (parseCommand "AZ1EL0").az_ccw) :=
  have h : ReadCode "AZ" "AZ1EL0" '1' := ⟨[], ['E', 'L', '0'], rfl, by decide, by simp⟩
  ⟨h, parseCommand_AZ1.1 "AZ1EL0" h⟩

/-- C2, as stated, fails: the line `AZ0 AZ1` contains `AZ1`, yet only its
first marker `AZ0` is read and both azimuth fields are `false`; and the line
made of a NUL character followed by `AZ1` contains `AZ1`, yet the search stops
at the NUL character and both azimuth fields keep the initial `true`. -/
theorem parseCommand_AZ1_counterexample :
    (Contains "AZ0 AZ1" "AZ1" ∧
      ¬ ((parseCommand "AZ0 AZ1").az_cw = true ∧ (parseCommand "AZ0 AZ1").az_ccw = false)) ∧
    (Contains (String.mk [Char.ofNat 0, 'A', 'Z', '1']) "AZ1" ∧
      ¬ ((parseCommand (String.mk [Char.ofNat 0, 'A', 'Z', '1'])).az_cw = true ∧
        (parseCommand (String.mk [Char.ofNat 0, 'A', 'Z', '1'])).az_ccw = false)) := by
  decide

/-- C3 (what the code does by design): on every line in which the first
occurrence of `AZ` is immediately followed by `'2'` and no NUL character stands
before it, the azimuth pair is the pair of the line `AZ2` alone, exactly one of
`az_cw`, `az_ccw` is `true`, and it is the other field than for the command
`'1'`.  Which of the two azimuth fields is the `true` one is not part of this
statement. -/
theorem parseCommand_AZ2 (s : String) (h : ReadCode "AZ" s '2') :
    ((parseCommand s).az_cw, (parseCommand s).az_ccw)
      = ((parseCommand "AZ2").az_cw, (parseCommand "AZ2").az_ccw) ∧
    (parseCommand s).az_cw ≠ (parseCommand s).az_ccw ∧
    ((parseCommand s).az_cw, (parseCommand s).az_ccw)
      = ((parseCommand "AZ1").az_ccw, (parseCommand "AZ1").az_cw) := by
  have h1 := az_of_code s '2' h
  have h2 := az_of_code "AZ2" '2' ⟨[], [], rfl, by decide, by simp⟩
  refine ⟨h1.trans h2.symm, ?_, ?_⟩
  · have h3 := h1
    rw [Prod.ext_iff] at h3
    have hx : (parseCommand s).az_cw = true := h3.1
    have hy : (parseCommand s).az_ccw = false := h3.2
    rw [hx, hy]
    decide
  · rw [h1]
    decide

/-- C3 applied to the line `AZ2`. -/
theorem parseCommand_AZ2_witness :
    ReadCode "AZ" "AZ2" '2' ∧
      (((parseCommand "AZ2").az_cw, (parseCommand "AZ2").az_ccw)
        = ((parseCommand "AZ2").az_cw, (parseCommand "AZ2").az_ccw) ∧
      (parseCommand "AZ2").az_cw ≠ (parseCommand "AZ2").az_ccw ∧
      ((parseCommand "AZ2").az_cw, (parseCommand "AZ2").az_ccw)
        = ((parseCommand "AZ1").az_ccw, (parseCommand "AZ1").az_cw)) :=
  have h : ReadCode "AZ" "AZ2" '2' := ⟨[], [], rfl, by decide, by simp⟩
  ⟨h, parseCommand_AZ2 "AZ2" h⟩

/-- C3, as stated, fails: the line `AZ0 AZ2` contains `AZ2`, yet only its
first marker `AZ0` is read and both azimuth fields are `false`; and the line
made of a NUL character followed by `AZ2` contains `AZ2`, yet the search stops
at the NUL character and both azimuth fields keep the initial `true`. -/
theorem parseCommand_AZ2_counterexample :
    (Contains "AZ0 AZ2" "AZ2" ∧
      ¬ ((parseCommand "AZ0 AZ2").az_ccw = true ∧ (parseCommand "AZ0 AZ2").az_cw = false)) ∧
    (Contains (String.mk [Char.ofNat 0, 'A', 'Z', '2']) "AZ2" ∧
      ¬ ((parseCommand (String.mk [Char.ofNat 0, 'A', 'Z', '2'])).az_ccw = true ∧
        (parseCommand (String.mk [Char.ofNat 0, 'A', 'Z', '2'])).az_cw = false)) := by
  decide

/-- C4 (as the code has it): on every line whose first `AZ` marker is
immediately followed by `'0'`, with no NUL character before it, both azimuth
fields are `false`; on every line with no `AZ` marker at all, both azimuth
fields are `true` (the initial value `HIGH`). -/
theorem parseCommand_AZ0_or_absent (s : String) :
    (ReadCode "AZ" s '0' →
      (parseCommand s).az_cw = false ∧ (parseCommand s).az_ccw = false) ∧
    (¬ Contains s "AZ" →
      (parseCommand s).az_cw = true ∧ (parseCommand s).az_ccw = true) := by
  constructor
  · intro h
    have := az_of_code s '0' h
    rw [Prod.ext_iff] at this
    exact this
  · intro h
    have := az_of_absent s h
    rw [Prod.ext_iff] at this
    exact this

/-- C4 applied to the lines `AZ0` and `garbage`. -/
theorem parseCommand_AZ0_or_absent_witness :
    (ReadCode "AZ" "AZ0" '0' ∧
      ((parseCommand "AZ0").az_cw = false ∧ (parseCommand "AZ0").az_ccw = false)) ∧
    (¬ Contains "garbage" "AZ" ∧
      ((parseCommand "garbage").az_cw = true ∧ (parseCommand "garbage").az_ccw = true)) :=
  have h0 : ReadCode "AZ" "AZ0" '0' := ⟨[], [], rfl, by decide, by simp⟩
  have h1 : ¬ Contains "garbage" "AZ" := by decide
  ⟨⟨h0, (parseCommand_AZ0_or_absent "AZ0").1 h0⟩,
    ⟨h1, (parseCommand_AZ0_or_absent "garbage").2 h1⟩⟩

/-- C4, as stated, fails: the line `garbage` has no `AZ` marker and both
azimuth fields are `true`; the line `AZ1 AZ0` contains `AZ0`, yet only its
first marker `AZ1` is read and the azimuth fields are not both `false`; and
the line made of a NUL character followed by `AZ0` contains `AZ0`, yet the
search stops at the NUL character and both azimuth fields are `true`. -/
theorem parseCommand_AZ0_or_absent_counterexample :
    (¬ Contains "garbage" "AZ" ∧
      ¬ ((parseCommand "garbage").az_cw = false ∧ (parseCommand "garbage").az_ccw = false)) ∧
    (Contains "AZ1 AZ0" "AZ0" ∧
      ¬ ((parseCommand "AZ1 AZ0").az_cw = false ∧ (parseCommand "AZ1 AZ0").az_ccw = false)) ∧
    (Contains (String.mk [Char.ofNat 0, 'A', 'Z', '0']) "AZ0" ∧
      (parseCommand (String.mk [Char.ofNat 0, 'A', 'Z', '0'])).az_cw = true ∧
      (parseCommand (String.mk [Char.ofNat 0, 'A', 'Z', '0'])).az_ccw = true) := by
  decide

/-- C5 (as the code has it): on every line whose first `EL` marker is
immediately followed by `'1'`, with no NUL character before it, `parseCommand`
returns `alt_up = true` and `alt_down = false`; the line `EL1` yields
`{cw:true, ccw:true, up:true, down:false}`. -/
theorem parseCommand_EL1 :
    (∀ s : String, ReadCode "EL" s '1' →
      (parseCommand s).alt_up = true ∧ (parseCommand s).alt_down = false) ∧
    parseCommand "EL1" = ⟨true, true, true, false⟩ := by
  refine ⟨fun s h => ?_, by decide⟩
  have := el_of_code s '1' h
  rw [Prod.ext_iff] at this
  exact this

/-- C5 applied to the line `EL1`. -/
theorem parseCommand_EL1_witness :
    ReadCode "EL" "EL1" '1' ∧
      ((parseCommand "EL1").alt_up = true ∧ (parseCommand "EL1").alt_down = false) :=
  have h : ReadCode "EL" "EL1" '1' := ⟨[], [], rfl, by decide, by simp⟩
  ⟨h, parseCommand_EL1.1 "EL1" h⟩

/-- C5, as stated, fails: the line `EL1` yields both azimuth fields `true`,
not the claimed state; the line `EL2EL1` contains `EL1`, yet `alt_up = false`
and `alt_down = true` because only its first marker `EL2` is read; and the
line made of a NUL character followed by `EL1` contains `EL1`, yet the search
stops at the NUL character and both elevation fields are `true`. -/
theorem parseCommand_EL1_counterexample :
    parseCommand "EL1" ≠ ⟨false, false, true, false⟩ ∧
    (Contains "EL2EL1" "EL1" ∧
      ¬ ((parseCommand "EL2EL1").alt_up = true ∧ (parseCommand "EL2EL1").alt_down = false)) ∧
    (Contains (String.mk [Char.ofNat 0, 'E', 'L', '1']) "EL1" ∧
      ¬ ((parseCommand (String.mk [Char.ofNat 0, 'E', 'L', '1'])).alt_up = true ∧
        (parseCommand (String.mk [Char.ofNat 0, 'E', 'L', '1'])).alt_down = false)) := by
  decide

/-- C6 (as the code has it): on every line whose first `EL` marker is
immediately followed by `'2'`, with no NUL character before it, `parseCommand`
returns `alt_down = true` and `alt_up = false`. -/
theorem parseCommand_EL2 (s : String) (h : ReadCode "EL" s '2') :
    (parseCommand s).alt_down = true ∧ (parseCommand s).alt_up = false := by
  have := el_of_code s '2' h
  rw [Prod.ext_iff] at this
  exact ⟨this.2, this.1⟩

/-- C6 applied to the line `EL2`. -/
theorem parseCommand_EL2_witness :
    ReadCode "EL" "EL2" '2' ∧
      ((parseCommand "EL2").alt_down = true ∧ (parseCommand "EL2").alt_up = false) :=
  have h : ReadCode "EL" "EL2" '2' := ⟨[], [], rfl, by decide, by simp⟩
  ⟨h, parseCommand_EL2 "EL2" h⟩

/-- C6, as stated, fails: the line `EL1EL2` contains `EL2`, yet
`alt_down = false` and `alt_up = true` because only its first marker `EL1`
is read; and the line `AZ1`, NUL character, `EL2` contains `EL2`, yet the
search stops at the NUL character and both elevation fields are `true`. -/
theorem parseCommand_EL2_counterexample :
    (Contains "EL1EL2" "EL2" ∧
      ¬ ((parseCommand "EL1EL2").alt_down = true ∧ (parseCommand "EL1EL2").alt_up = false)) ∧
    (Contains (String.mk ['A', 'Z', '1', Char.ofNat 0, 'E', 'L', '2']) "EL2" ∧
      ¬ ((parseCommand (String.mk ['A', 'Z', '1', Char.ofNat 0, 'E', 'L', '2'])).alt_down = true ∧
        (parseCommand (String.mk ['A', 'Z', '1', Char.ofNat 0, 'E', 'L', '2'])).alt_up
          = false)) := by
  decide

/-- C7 (as the code has it): on every line whose first `EL` marker is
immediately followed by `'0'`, with no NUL character before it, both elevation
fields are `false`; on every line with no `EL` marker at all, both elevation
fields are `true` (the initial value `HIGH`). -/
theorem parseCommand_EL0_or_absent (s : String) :
    (ReadCode "EL" s '0' →
      (parseCommand s).alt_up = false ∧ (parseCommand s).alt_down = false) ∧
    (¬ Contains s "EL" →
      (parseCommand s).alt_up = true ∧ (parseCommand s).alt_down = true) := by
  constructor
  · intro h
    have := el_of_code s '0' h
    rw [Prod.ext_iff] at this
    exact this
  · intro h
    have := el_of_absent s h
    rw [Prod.ext_iff] at this
    exact this

/-- C7 applied to the lines `EL0` and `garbage`. -/
theorem parseCommand_EL0_or_absent_witness :
    (ReadCode "EL" "EL0" '0' ∧
      ((parseCommand "EL0").alt_up = false ∧ (parseCommand "EL0").alt_down = false)) ∧
    (¬ Contains "garbage" "EL" ∧
      ((parseCommand "garbage").alt_up = true ∧ (parseCommand "garbage").alt_down = true)) :=
  have h0 : ReadCode "EL" "EL0" '0' := ⟨[], [], rfl, by decide, by simp⟩
  have h1 : ¬ Contains "garbage" "EL" := by decide
  ⟨⟨h0, (parseCommand_EL0_or_absent "EL0").1 h0⟩,
    ⟨h1, (parseCommand_EL0_or_absent "garbage").2 h1⟩⟩

/-- C7, as stated, fails: the line `AZ1` has no `EL` marker and both
elevation fields are `true`; the line `EL1 EL0` contains `EL0`, yet
`alt_up = true` because only its first marker `EL1` is read; and the line
made of a NUL character followed by `EL0` contains `EL0`, yet the search stops
at the NUL character and both elevation fields are `true`. -/
theorem parseCommand_EL0_or_absent_counterexample :
    (¬ Contains "AZ1" "EL" ∧
      ¬ ((parseCommand "AZ1").alt_up = false ∧ (parseCommand "AZ1").alt_down = false)) ∧
    (Contains "EL1 EL0" "EL0" ∧
      ¬ ((parseCommand "EL1 EL0").alt_up = false ∧ (parseCommand "EL1 EL0").alt_down = false)) ∧
    (Contains (String.mk [Char.ofNat 0, 'E', 'L', '0']) "EL0" ∧
      (parseCommand (String.mk [Char.ofNat 0, 'E', 'L', '0'])).alt_up = true ∧
      (parseCommand (String.mk [Char.ofNat 0, 'E', 'L', '0'])).alt_down = true) := by
  decide

/-- C8 (as the code has it): on every line that contains neither `AZ` nor
`EL` (the empty line included), `parseCommand` returns the initial state, in
which all four fields are `true`. -/
theorem parseCommand_no_marker (s : String) (haz : ¬ Contains s "AZ")
    (hel : ¬ Contains s "EL") : parseCommand s = ⟨true, true, true, true⟩ := by
  have h1 := az_of_absent s haz
  have h2 := el_of_absent s hel
  rw [Prod.ext_iff] at h1 h2
  cases hs : parseCommand s with
  | mk a b c d =>
    rw [hs] at h1 h2
    simp only at h1 h2
    rw [h1.1, h1.2, h2.1, h2.2]

/-- C8 applied to the line `garbage`. -/
theorem parseCommand_no_marker_witness :
    (¬ Contains "garbage" "AZ" ∧ ¬ Contains "garbage" "EL") ∧
      parseCommand "garbage" = ⟨true, true, true, true⟩ :=
  ⟨⟨by decide, by decide⟩, parseCommand_no_marker "garbage" (by decide) (by decide)⟩

/-- C8, as stated, fails: the line `garbage` contains neither marker and
yields all four fields `true`, not all four `false`; so does the empty line. -/
theorem parseCommand_no_marker_counterexample :
    (¬ Contains "garbage" "AZ" ∧ ¬ Contains "garbage" "EL" ∧
      parseCommand "garbage" ≠ ⟨false, false, false, false⟩) ∧
    (¬ Contains "" "AZ" ∧ ¬ Contains "" "EL" ∧
      parseCommand "" ≠ ⟨false, false, false, false⟩) := by
  decide

/-- C9, the code at the line `AZ1 EL2`: it returns
`{az_cw:false, az_ccw:true, alt_up:false, alt_down:true}`, which is not the
state `{az_cw:true, az_ccw:false, alt_up:false, alt_down:true}` of the claim.
The elevation pair is the claimed one; the azimuth pair is the claimed one with
its two fields swapped. -/
theorem parseCommand_AZ1_EL2 :
    parseCommand "AZ1 EL2" = ⟨false, true, false, true⟩ ∧
    parseCommand "AZ1 EL2" ≠ ⟨true, false, false, true⟩ := by
  decide

/-- C10 (as the code has it): for all texts `p`, `m`, `q` without the letters
`A`, `Z`, `E`, `L`, with no NUL character in `p` and `m`, and all command
characters `a`, `e` among `'0'`, `'1'`, `'2'`, the line with the azimuth
command before the elevation command parses to the same state as the line with
the two commands swapped; its azimuth pair is that of the line `AZ a` alone and
its elevation pair is that of the line `EL e` alone. -/
theorem parseCommand_marker_order (p m q : String) (a e : Char)
    (hp : ∀ c ∈ p.data, c ∉ ['A', 'Z', 'E', 'L'])
    (hm : ∀ c ∈ m.data, c ∉ ['A', 'Z', 'E', 'L'])
    (_hq : ∀ c ∈ q.data, c ∉ ['A', 'Z', 'E', 'L'])
    (hp0 : Char.ofNat 0 ∉ p.data) (hm0 : Char.ofNat 0 ∉ m.data)
    (ha : a ∈ ['0', '1', '2']) (he : e ∈ ['0', '1', '2']) :
    parseCommand (p ++ "AZ" ++ String.singleton a ++ m ++ "EL" ++ String.singleton e ++ q)
      = parseCommand (p ++ "EL" ++ String.singleton e ++ m ++ "AZ" ++ String.singleton a ++ q) ∧
    ((parseCommand
          (p ++ "AZ" ++ String.singleton a ++ m ++ "EL" ++ String.singleton e ++ q)).az_cw,
      (parseCommand
          (p ++ "AZ" ++ String.singleton a ++ m ++ "EL" ++ String.singleton e ++ q)).az_ccw)
      = ((parseCommand ("AZ" ++ String.singleton a)).az_cw,
          (parseCommand ("AZ" ++ String.singleton a)).az_ccw) ∧
    ((parseCommand
          (p ++ "AZ" ++ String.singleton a ++ m ++ "EL" ++ String.singleton e ++ q)).alt_up,
      (parseCommand
          (p ++ "AZ" ++ String.singleton a ++ m ++ "EL" ++ String.singleton e ++ q)).alt_down)
      = ((parseCommand ("EL" ++ String.singleton e)).alt_up,
          (parseCommand ("EL" ++ String.singleton e)).alt_down) := by
  have haL : a ≠ 'L' := by
    intro h; rw [h] at ha; exact absurd ha (by decide)
  have heZ : e ≠ 'Z' := by
    intro h; rw [h] at he; exact absurd he (by decide)
  have ha0 : Char.ofNat 0 ≠ a := by
    intro h; rw [← h] at ha; exact absurd ha (by decide)
  have he0 : Char.ofNat 0 ≠ e := by
    intro h; rw [← h] at he; exact absurd he (by decide)
  have hpZ : 'Z' ∉ p.data := fun h => hp _ h (by decide)
  have hpL : 'L' ∉ p.data := fun h => hp _ h (by decide)
  have hmZ : 'Z' ∉ m.data := fun h => hm _ h (by decide)
  have hmL : 'L' ∉ m.data := fun h => hm _ h (by decide)
  have hAZ0 : Char.ofNat 0 ∉ "AZ".data := by decide
  have hEL0 : Char.ofNat 0 ∉ "EL".data := by decide
  -- the azimuth-first line
  have az1 : ReadCode "AZ"
      (p ++ "AZ" ++ String.singleton a ++ m ++ "EL" ++ String.singleton e ++ q) a := by
    refine ⟨p.data, m.data ++ "EL".data ++ e :: q.data, ?_, ?_, hp0⟩
    · simp [String.data_append]
    · apply not_infix_pair
      simp [hpZ]
  have el1 : ReadCode "EL"
      (p ++ "AZ" ++ String.singleton a ++ m ++ "EL" ++ String.singleton e ++ q) e := by
    refine ⟨p.data ++ "AZ".data ++ a :: m.data, q.data, ?_, ?_, ?_⟩
    · simp [String.data_append]
    · apply not_infix_pair
      simp [hpL, hmL, haL.symm]
    · intro hmem
      rcases List.mem_append.mp hmem with h1 | h1
      · rcases List.mem_append.mp h1 with h2 | h2
        · exact hp0 h2
        · exact hAZ0 h2
      · rcases List.mem_cons.mp h1 with h2 | h2
        · exact ha0 h2
        · exact hm0 h2
  -- the elevation-first line
  have az2 : ReadCode "AZ"
      (p ++ "EL" ++ String.singleton e ++ m ++ "AZ" ++ String.singleton a ++ q) a := by
    refine ⟨p.data ++ "EL".data ++ e :: m.data, q.data, ?_, ?_, ?_⟩
    · simp [String.data_append]
    · apply not_infix_pair
      simp [hpZ, hmZ, heZ.symm]
    · intro hmem
      rcases List.mem_append.mp hmem with h1 | h1
      · rcases List.mem_append.mp h1 with h2 | h2
        · exact hp0 h2
        · exact hEL0 h2
      · rcases List.mem_cons.mp h1 with h2 | h2
        · exact he0 h2
        · exact hm0 h2
  have el2 : ReadCode "EL"
      (p ++ "EL" ++ String.singleton e ++ m ++ "AZ" ++ String.singleton a ++ q) e := by
    refine ⟨p.data, m.data ++ "AZ".data ++ a :: q.data, ?_, ?_, hp0⟩
    · simp [String.data_append]
    · apply not_infix_pair
      simp [hpL]
  -- the single-command lines
  have az0 : ReadCode "AZ" ("AZ" ++ String.singleton a) a :=
    ⟨[], [], by simp [String.data_append], by decide, by simp⟩
  have el0 : ReadCode "EL" ("EL" ++ String.singleton e) e :=
    ⟨[], [], by simp [String.data_append], by decide, by simp⟩
  refine ⟨state_eq_of_pairs _ _ ?_ ?_, ?_, ?_⟩
  · rw [az_of_code _ a az1, az_of_code _ a az2]
  · rw [el_of_code _ e el1, el_of_code _ e el2]
  · rw [az_of_code _ a az1, az_of_code _ a az0]
  · rw [el_of_code _ e el1, el_of_code _ e el0]

/-- C10 applied to `p = "x"`, `m = " "`, `q = "!"`, `a = '1'`, `e = '2'`:
the lines `xAZ1 EL2!` and `xEL2 AZ1!`. -/
theorem parseCommand_marker_order_witness :
    ((∀ c ∈ "x".data, c ∉ ['A', 'Z', 'E', 'L']) ∧ (∀ c ∈ " ".data, c ∉ ['A', 'Z', 'E', 'L']) ∧
      (∀ c ∈ "!".data, c ∉ ['A', 'Z', 'E', 'L']) ∧
      Char.ofNat 0 ∉ "x".data ∧ Char.ofNat 0 ∉ " ".data ∧
      '1' ∈ ['0', '1', '2'] ∧ '2' ∈ ['0', '1', '2']) ∧
    (parseCommand ("x" ++ "AZ" ++ String.singleton '1' ++ " " ++ "EL" ++ String.singleton '2' ++ "!")
      = parseCommand
          ("x" ++ "EL" ++ String.singleton '2' ++ " " ++ "AZ" ++ String.singleton '1' ++ "!") ∧
    ((parseCommand
          ("x" ++ "AZ" ++ String.singleton '1' ++ " " ++ "EL" ++ String.singleton '2' ++ "!")).az_cw,
      (parseCommand
          ("x" ++ "AZ" ++ String.singleton '1' ++ " " ++ "EL" ++ String.singleton '2' ++ "!")).az_ccw)
      = ((parseCommand ("AZ" ++ String.singleton '1')).az_cw,
          (parseCommand ("AZ" ++ String.singleton '1')).az_ccw) ∧
    ((parseCommand
          ("x" ++ "AZ" ++ String.singleton '1' ++ " " ++ "EL" ++ String.singleton '2' ++ "!")).alt_up,
      (parseCommand
          ("x" ++ "AZ" ++ String.singleton '1' ++ " " ++ "EL" ++ String.singleton '2' ++ "!")).alt_down)
      = ((parseCommand ("EL" ++ String.singleton '2')).alt_up,
          (parseCommand ("EL" ++ String.singleton '2')).alt_down)) :=
  ⟨⟨by decide, by decide, by decide, by decide, by decide, by decide, by decide⟩,
    parseCommand_marker_order "x" " " "!" '1' '2'
      (by decide) (by decide) (by decide) (by decide) (by decide) (by decide) (by decide)⟩

/-- C10, as stated, fails for `p` and `q` empty, `m` the text made of one NUL
character, `a = '1'` and `e = '2'`: `m` holds none of the letters `A`, `Z`, `E`,
`L`, yet the search stops at the NUL character, so the line `AZ1`, NUL, `EL2`
parses to `{false, true, true, true}` and the swapped line `EL2`, NUL, `AZ1` to
`{true, true, false, true}`, and the elevation pair of the first is not that of
the line `EL2`. -/
theorem parseCommand_marker_order_counterexample :
    (∀ c ∈ (String.singleton (Char.ofNat 0)).data, c ∉ ['A', 'Z', 'E', 'L']) ∧
    parseCommand ("" ++ "AZ" ++ String.singleton '1' ++ String.singleton (Char.ofNat 0)
        ++ "EL" ++ String.singleton '2' ++ "") = ⟨false, true, true, true⟩ ∧
    parseCommand ("" ++ "EL" ++ String.singleton '2' ++ String.singleton (Char.ofNat 0)
        ++ "AZ" ++ String.singleton '1' ++ "") = ⟨true, true, false, true⟩ ∧
    parseCommand ("" ++ "AZ" ++ String.singleton '1' ++ String.singleton (Char.ofNat 0)
        ++ "EL" ++ String.singleton '2' ++ "")
      ≠ parseCommand ("" ++ "EL" ++ String.singleton '2' ++ String.singleton (Char.ofNat 0)
        ++ "AZ" ++ String.singleton '1' ++ "") ∧
    ((parseCommand ("" ++ "AZ" ++ String.singleton '1' ++ String.singleton (Char.ofNat 0)
        ++ "EL" ++ String.singleton '2' ++ "")).alt_up,
      (parseCommand ("" ++ "AZ" ++ String.singleton '1' ++ String.singleton (Char.ofNat 0)
        ++ "EL" ++ String.singleton '2' ++ "")).alt_down)
      ≠ ((parseCommand ("EL" ++ String.singleton '2')).alt_up,
          (parseCommand ("EL" ++ String.singleton '2')).alt_down) := by
  decide

/-! ## Claims about unrecognised commands -/

/-- C11 (as the code has it): an axis with no recognised command keeps the
initial pair `(true, true)`, which is not the pair of an explicit stop.  On
every line in which the `AZ` marker is absent, or its first occurrence is
followed by a character other than `'0'`, `'1'`, `'2'`, the azimuth pair is
`(true, true)` and differs from the azimuth pair `(false, false)` returned for
`AZ0`; likewise the elevation pair and `EL0`. -/
theorem parseCommand_unrecognised_pair (s : String) :
    ((¬ Contains s "AZ" ∨ ∃ a, a ∉ ['0', '1', '2'] ∧ MarkerCode "AZ" s a) →
      ((parseCommand s).az_cw, (parseCommand s).az_ccw) = (true, true) ∧
      ((parseCommand s).az_cw, (parseCommand s).az_ccw)
        ≠ ((parseCommand "AZ0").az_cw, (parseCommand "AZ0").az_ccw)) ∧
    ((¬ Contains s "EL" ∨ ∃ a, a ∉ ['0', '1', '2'] ∧ MarkerCode "EL" s a) →
      ((parseCommand s).alt_up, (parseCommand s).alt_down) = (true, true) ∧
      ((parseCommand s).alt_up, (parseCommand s).alt_down)
        ≠ ((parseCommand "EL0").alt_up, (parseCommand "EL0").alt_down)) := by
  constructor
  · intro h
    have key : ((parseCommand s).az_cw, (parseCommand s).az_ccw) = (true, true) := by
      rcases h with h | ⟨a, ha, hm⟩
      · exact az_of_absent s h
      · rw [parseCommand_az_axisOf]
        exact axisOf_markerCode_other "AZ" _ _ s a rfl rfl hm ha
    refine ⟨key, ?_⟩
    rw [key]
    decide
  · intro h
    have key : ((parseCommand s).alt_up, (parseCommand s).alt_down) = (true, true) := by
      rcases h with h | ⟨a, ha, hm⟩
      · exact el_of_absent s h
      · rw [parseCommand_el_axisOf]
        exact axisOf_markerCode_other "EL" _ _ s a rfl rfl hm ha
    refine ⟨key, ?_⟩
    rw [key]
    decide

/-- C11 applied to the line `AZ7`, whose azimuth command is not recognised
and which has no `EL` marker. -/
theorem parseCommand_unrecognised_pair_witness :
    ((¬ Contains "AZ7" "AZ" ∨ ∃ a, a ∉ ['0', '1', '2'] ∧ MarkerCode "AZ" "AZ7" a) ∧
      ((parseCommand "AZ7").az_cw, (parseCommand "AZ7").az_ccw) = (true, true) ∧
      ((parseCommand "AZ7").az_cw, (parseCommand "AZ7").az_ccw)
        ≠ ((parseCommand "AZ0").az_cw, (parseCommand "AZ0").az_ccw)) ∧
    ((¬ Contains "AZ7" "EL" ∨ ∃ a, a ∉ ['0', '1', '2'] ∧ MarkerCode "EL" "AZ7" a) ∧
      ((parseCommand "AZ7").alt_up, (parseCommand "AZ7").alt_down) = (true, true) ∧
      ((parseCommand "AZ7").alt_up, (parseCommand "AZ7").alt_down)
        ≠ ((parseCommand "EL0").alt_up, (parseCommand "EL0").alt_down)) :=
  have haz : ¬ Contains "AZ7" "AZ" ∨ ∃ a, a ∉ ['0', '1', '2'] ∧ MarkerCode "AZ" "AZ7" a :=
    Or.inr ⟨'7', by decide, [], [], rfl, by decide⟩
  have hel : ¬ Contains "AZ7" "EL" ∨ ∃ a, a ∉ ['0', '1', '2'] ∧ MarkerCode "EL" "AZ7" a :=
    Or.inl (by decide)
  ⟨⟨haz, (parseCommand_unrecognised_pair "AZ7").1 haz⟩,
    ⟨hel, (parseCommand_unrecognised_pair "AZ7").2 hel⟩⟩

/-- C11, as stated, fails: the empty line has neither marker, and the line
`AZ7 EL7` has both first markers followed by `'7'`; on both lines each axis
pair is `(true, true)`, while `AZ0` and `EL0` give `(false, false)`. -/
theorem parseCommand_unrecognised_pair_counterexample :
    (¬ Contains "" "AZ" ∧
      ((parseCommand "").az_cw, (parseCommand "").az_ccw)
        ≠ ((parseCommand "AZ0").az_cw, (parseCommand "AZ0").az_ccw)) ∧
    (¬ Contains "" "EL" ∧
      ((parseCommand "").alt_up, (parseCommand "").alt_down)
        ≠ ((parseCommand "EL0").alt_up, (parseCommand "EL0").alt_down)) ∧
    ((parseCommand "AZ7 EL7").az_cw, (parseCommand "AZ7 EL7").az_ccw)
      ≠ ((parseCommand "AZ0").az_cw, (parseCommand "AZ0").az_ccw) ∧
    ((parseCommand "AZ7 EL7").alt_up, (parseCommand "AZ7 EL7").alt_down)
      ≠ ((parseCommand "EL0").alt_up, (parseCommand "EL0").alt_down) := by
  decide

/-- C12: `parseCommand` is a total function of the line, and the position it
reads is never beyond the end of the buffer: whenever a marker is found, its
index is not negative and the command position `index + 2` is at most the
length of the line.  When the first `AZ` marker is the last two characters of
the line, that is the line is `p ++ "AZ"` with no `AZ` in `p`, the state is the
state of the line `p` without the marker: the azimuth pair is that of every
line with no `AZ` marker and the elevation pair is unchanged; and when the
marker is found (no NUL character in `p`) the command position is the length
of the line and the read there returns the NUL character.  Likewise for
`EL`. -/
theorem parseCommand_marker_at_end (p : String) :
    ((indexOf p "AZ" ≠ -1 →
        0 ≤ indexOf p "AZ" ∧ (indexOf p "AZ" + 2).toNat ≤ p.data.length) ∧
      (indexOf p "EL" ≠ -1 →
        0 ≤ indexOf p "EL" ∧ (indexOf p "EL" + 2).toNat ≤ p.data.length)) ∧
    (¬ Contains p "AZ" →
      parseCommand (p ++ "AZ") = parseCommand p ∧
      (∀ t, ¬ Contains t "AZ" →
        ((parseCommand (p ++ "AZ")).az_cw, (parseCommand (p ++ "AZ")).az_ccw)
          = ((parseCommand t).az_cw, (parseCommand t).az_ccw)) ∧
      (Char.ofNat 0 ∉ p.data →
        (indexOf (p ++ "AZ") "AZ" + 2).toNat = (p ++ "AZ").data.length ∧
        charAt (p ++ "AZ") (indexOf (p ++ "AZ") "AZ" + 2).toNat = Char.ofNat 0)) ∧
    (¬ Contains p "EL" →
      parseCommand (p ++ "EL") = parseCommand p ∧
      (∀ t, ¬ Contains t "EL" →
        ((parseCommand (p ++ "EL")).alt_up, (parseCommand (p ++ "EL")).alt_down)
          = ((parseCommand t).alt_up, (parseCommand t).alt_down)) ∧
      (Char.ofNat 0 ∉ p.data →
        (indexOf (p ++ "EL") "EL" + 2).toNat = (p ++ "EL").data.length ∧
        charAt (p ++ "EL") (indexOf (p ++ "EL") "EL" + 2).toNat = Char.ofNat 0)) := by
  have bound : ∀ marker : String, marker.data.length = 2 → cstr marker.data = marker.data →
      indexOf p marker ≠ -1 →
      0 ≤ indexOf p marker ∧ (indexOf p marker + 2).toNat ≤ p.data.length := by
    intro marker hlen hc hi
    have hne : marker.data ≠ [] := by
      intro h0; rw [h0] at hlen; exact absurd hlen (by decide)
    obtain ⟨u, rest, hs, _, _, hidx⟩ := indexOf_found p marker hne hc hi
    rw [hidx, hs]
    simp only [List.length_append, hlen]
    omega
  have atEnd : ∀ (marker : String) (x y : Char), marker.data = [x, y] → y ≠ x →
      cstr marker.data = marker.data → ¬ Contains p marker →
      (∀ pos neg, axisOf marker pos neg (p ++ marker) = (HIGH, HIGH)) ∧
      (Char.ofNat 0 ∉ p.data →
        (indexOf (p ++ marker) marker + 2).toNat = (p ++ marker).data.length ∧
        charAt (p ++ marker) (indexOf (p ++ marker) marker + 2).toNat = Char.ofNat 0) := by
    intro marker x y hm hxy hc h
    have hlen : marker.data.length = 2 := by rw [hm]; rfl
    have hne : marker.data ≠ [] := by rw [hm]; exact List.cons_ne_nil _ _
    have hs : (p ++ marker).data = p.data ++ marker.data := String.data_append p marker
    have hs2 : (p ++ marker).data = p.data ++ marker.data ++ [] := by
      rw [hs, List.append_nil]
    have hfirst : ¬ marker.data <:+: p.data ++ marker.data.dropLast := by
      unfold Contains at h
      rw [hm] at h ⊢
      exact first_of_absent x y p.data hxy h
    constructor
    · intro pos neg
      by_cases hp : Char.ofNat 0 ∈ p.data
      · exact axisOf_not_found marker pos neg _
          (indexOf_nul_before marker _ p.data [] hne hc hs2 hfirst hp)
      · exact axisOf_end marker pos neg _ p.data hlen hc hs hfirst hp
    · intro hp
      have hidx := indexOf_first marker (p ++ marker) p.data [] hne hc hs2 hfirst hp
      have hend := markerEnd_index marker (p ++ marker) p.data hne hc hs hfirst hp
      rw [hlen] at hend
      refine ⟨?_, hend.2⟩
      rw [hidx, hs, List.length_append, hlen]
      omega
  refine ⟨⟨bound "AZ" rfl rfl, bound "EL" rfl rfl⟩, ?_, ?_⟩
  · intro h
    obtain ⟨hpair, hidx⟩ := atEnd "AZ" 'A' 'Z' rfl (by decide) rfl h
    have haz : ((parseCommand (p ++ "AZ")).az_cw, (parseCommand (p ++ "AZ")).az_ccw)
        = (true, true) := by
      rw [parseCommand_az_axisOf]
      exact hpair _ _
    refine ⟨?_, ?_, hidx⟩
    · apply state_eq_of_pairs
      · rw [haz, az_of_absent p h]
      · rw [parseCommand_el_axisOf, parseCommand_el_axisOf]
        exact axisOf_pad "EL" 'E' 'L' rfl rfl _ _ (p ++ "AZ") p [] "AZ".data
          (by simp [String.data_append]) (by simp) (by simp) (by decide) (by decide)
    · intro t ht
      rw [haz, az_of_absent t ht]
  · intro h
    obtain ⟨hpair, hidx⟩ := atEnd "EL" 'E' 'L' rfl (by decide) rfl h
    have hel : ((parseCommand (p ++ "EL")).alt_up, (parseCommand (p ++ "EL")).alt_down)
        = (true, true) := by
      rw [parseCommand_el_axisOf]
      exact hpair _ _
    refine ⟨?_, ?_, hidx⟩
    · apply state_eq_of_pairs
      · rw [parseCommand_az_axisOf, parseCommand_az_axisOf]
        exact axisOf_pad "AZ" 'A' 'Z' rfl rfl _ _ (p ++ "EL") p [] "EL".data
          (by simp [String.data_append]) (by simp) (by simp) (by decide) (by decide)
      · rw [hel, el_of_absent p h]
    · intro t ht
      rw [hel, el_of_absent t ht]

/-- C12 applied to the lines `EL1 AZ` and `AZ2 EL`. -/
theorem parseCommand_marker_at_end_witness :
    ((¬ Contains "EL1 " "AZ" ∧ Char.ofNat 0 ∉ "EL1 ".data) ∧
      parseCommand ("EL1 " ++ "AZ") = parseCommand "EL1 " ∧
      ((indexOf ("EL1 " ++ "AZ") "AZ" + 2).toNat = ("EL1 " ++ "AZ").data.length ∧
        charAt ("EL1 " ++ "AZ") (indexOf ("EL1 " ++ "AZ") "AZ" + 2).toNat = Char.ofNat 0)) ∧
    ((¬ Contains "AZ2 " "EL" ∧ Char.ofNat 0 ∉ "AZ2 ".data) ∧
      parseCommand ("AZ2 " ++ "EL") = parseCommand "AZ2 " ∧
      ((indexOf ("AZ2 " ++ "EL") "EL" + 2).toNat = ("AZ2 " ++ "EL").data.length ∧
        charAt ("AZ2 " ++ "EL") (indexOf ("AZ2 " ++ "EL") "EL" + 2).toNat = Char.ofNat 0)) :=
  have h1 : ¬ Contains "EL1 " "AZ" := by decide
  have h2 : ¬ Contains "AZ2 " "EL" := by decide
  have n1 : Char.ofNat 0 ∉ "EL1 ".data := by decide
  have n2 : Char.ofNat 0 ∉ "AZ2 ".data := by decide
  ⟨⟨⟨h1, n1⟩, ((parseCommand_marker_at_end "EL1 ").2.1 h1).1,
      ((parseCommand_marker_at_end "EL1 ").2.1 h1).2.2 n1⟩,
    ⟨⟨h2, n2⟩, ((parseCommand_marker_at_end "AZ2 ").2.2 h2).1,
      ((parseCommand_marker_at_end "AZ2 ").2.2 h2).2.2 n2⟩⟩

/-! ## Claims about the output driver, the loop and the start-up -/

theorem executeControl_eq_upTo (state : ControlState) (b : Board) :
    executeControl state b = executeControlUpTo 4 state b := rfl

theorem loop_eq_upTo (line : String) (b : Board) :
    loop (some line) b = emit (Event.delay 10) (loopUpTo 4 line b) := rfl

/-- C13: for every `ControlState`, `executeControl` makes exactly four pin
writes, in this order: pin 1 takes `az_cw`, pin 2 takes `az_ccw`, pin 3 takes
`alt_up`, pin 4 takes `alt_down`; the level of every other pin is unchanged. -/
theorem executeControl_writes (state : ControlState) (b : Board) :
    (executeControl state b).trace = b.trace ++
      [Event.digitalWrite 1 state.az_cw, Event.digitalWrite 2 state.az_ccw,
        Event.digitalWrite 3 state.alt_up, Event.digitalWrite 4 state.alt_down] ∧
    (∀ q, (executeControl state b).level q =
      if q = 1 then state.az_cw else if q = 2 then state.az_ccw
      else if q = 3 then state.alt_up else if q = 4 then state.alt_down
      else b.level q) := by
  constructor
  · simp [executeControl, digitalWrite, AZ_CW_PIN, AZ_CCW_PIN, ALT_UP_PIN, ALT_DOWN_PIN]
  · intro q
    simp only [executeControl, digitalWrite, AZ_CW_PIN, AZ_CCW_PIN, ALT_UP_PIN, ALT_DOWN_PIN]
    split_ifs <;> first | rfl | omega

/-- C14: for every prior board and every received line, the levels of the
four pins after one loop iteration that processes the line are the four fields
of `parseCommand` applied to the trimmed line; so they are the same from any
two prior boards. -/
theorem loop_levels (b c : Board) (line : String) :
    ((loop (some line) b).level 1 = (parseCommand (trim line)).az_cw ∧
      (loop (some line) b).level 2 = (parseCommand (trim line)).az_ccw ∧
      (loop (some line) b).level 3 = (parseCommand (trim line)).alt_up ∧
      (loop (some line) b).level 4 = (parseCommand (trim line)).alt_down) ∧
    (∀ q ∈ [1, 2, 3, 4], (loop (some line) b).level q = (loop (some line) c).level q) := by
  constructor
  · simp [loop, emit, executeControl, digitalWrite, AZ_CW_PIN, AZ_CCW_PIN, ALT_UP_PIN,
      ALT_DOWN_PIN]
  · intro q hq
    simp only [List.mem_cons, List.mem_singleton, List.not_mem_nil, or_false] at hq
    rcases hq with rfl | rfl | rfl | rfl <;>
      simp [loop, emit, executeControl, digitalWrite, AZ_CW_PIN, AZ_CCW_PIN, ALT_UP_PIN,
        ALT_DOWN_PIN]

/-- C16: `setup` of the relay controller writes HIGH to pins 1, 2, 3, 4, then,
after the call `delay(5000)`, writes LOW to pins 1, 2, 3, 4; when it returns the
four pins are LOW, whatever the board was before. -/
theorem setup_sequence (b : Board) :
    (setup b).trace = b.trace ++
      [Event.serialBegin 115200, Event.serialPrintln "Relay Control Initialized",
        Event.pinMode 1 PinMode.OUTPUT, Event.pinMode 2 PinMode.OUTPUT,
        Event.pinMode 3 PinMode.OUTPUT, Event.pinMode 4 PinMode.OUTPUT,
        Event.digitalWrite 1 true, Event.digitalWrite 2 true,
        Event.digitalWrite 3 true, Event.digitalWrite 4 true,
        Event.serialPrintln "Resetting...", Event.delay 5000,
        Event.digitalWrite 1 false, Event.digitalWrite 2 false,
        Event.digitalWrite 3 false, Event.digitalWrite 4 false,
        Event.serialPrintln "Reset complete."] ∧
    (setup b).level 1 = false ∧ (setup b).level 2 = false ∧
    (setup b).level 3 = false ∧ (setup b).level 4 = false := by
  refine ⟨?_, ?_, ?_, ?_, ?_⟩ <;>
    simp [setup, emit, digitalWrite, AZ_CW_PIN, AZ_CCW_PIN, ALT_UP_PIN, ALT_DOWN_PIN, HIGH, LOW]

end RelayControl

namespace GpioDemo

open RelayControl

/-- C17: in the LED sketch, for every board and every received byte `byte`
(a value below 256), one loop iteration that reads `byte` leaves the LED pin
HIGH if `byte = 49`, LOW if `byte = 48`, and at its previous level for every
other byte. -/
theorem led_loop_level (b : Board) (byte : Nat) (hb : byte < 256) :
    (byte = 49 → (loop (some byte) b).level LED = HIGH) ∧
    (byte = 48 → (loop (some byte) b).level LED = LOW) ∧
    (byte ≠ 49 → byte ≠ 48 → (loop (some byte) b).level LED = b.level LED) := by
  have hmod : byte % 256 = byte := Nat.mod_eq_of_lt hb
  refine ⟨?_, ?_, ?_⟩
  · intro h
    subst h
    simp [loop, emit, digitalWrite]
  · intro h
    subst h
    simp [loop, emit, digitalWrite]
  · intro h1 h2
    simp [loop, emit, hmod, h1, h2]

/-- C17 applied to the bytes 49, 48 and 120 on a board whose LED pin is HIGH. -/
theorem led_loop_level_witness :
    ((49 < 256 ∧ 49 = 49) ∧
      (loop (some 49) ⟨fun _ => true, []⟩).level LED = HIGH) ∧
    ((48 < 256 ∧ 48 = 48) ∧
      (loop (some 48) ⟨fun _ => true, []⟩).level LED = LOW) ∧
    ((120 < 256 ∧ 120 ≠ 49 ∧ 120 ≠ 48) ∧
      (loop (some 120) ⟨fun _ => true, []⟩).level LED
        = (⟨fun _ => true, []⟩ : Board).level LED) :=
  ⟨⟨⟨by decide, rfl⟩, (led_loop_level ⟨fun _ => true, []⟩ 49 (by decide)).1 rfl⟩,
    ⟨⟨by decide, rfl⟩, (led_loop_level ⟨fun _ => true, []⟩ 48 (by decide)).2.1 rfl⟩,
    ⟨⟨by decide, by decide, by decide⟩,
      (led_loop_level ⟨fun _ => true, []⟩ 120 (by decide)).2.2 (by decide) (by decide)⟩⟩

end GpioDemo

namespace RelayControl

/-! ## The reference definition and trimming -/

theorem codeAfterFirst_absent (pat : List Char) (l : List Char)
    (h : ¬ pat <:+: l) : codeAfterFirst pat l = none := by
  induction l with
  | nil => rfl
  | cons c cs ih =>
    unfold codeAfterFirst
    have h1 : ¬ pat.isPrefixOf (c :: cs) = true := fun hp =>
      h (List.isPrefixOf_iff_prefix.mp hp).isInfix
    rw [if_neg h1]
    exact ih (fun hin => h (hin.trans (List.suffix_cons c cs).isInfix))

theorem codeAfterFirst_first (pat p rest : List Char) (hne : pat ≠ [])
    (h : ¬ pat <:+: p ++ pat.dropLast) :
    codeAfterFirst pat (p ++ pat ++ rest) = rest.head? := by
  induction p with
  | nil =>
    obtain ⟨x, xs, rfl⟩ := List.exists_cons_of_ne_nil hne
    have hp : (x :: xs).isPrefixOf (x :: (xs ++ rest)) = true :=
      List.isPrefixOf_iff_prefix.mpr ⟨rest, rfl⟩
    simp only [List.nil_append, List.cons_append]
    unfold codeAfterFirst
    rw [if_pos hp]
    simp
  | cons c cs ih =>
    have hlen : pat.length ≤ (c :: cs ++ pat.dropLast).length := by
      simp only [List.length_append, List.length_cons, List.length_dropLast]
      omega
    have hp : ¬ pat.isPrefixOf (c :: (cs ++ pat ++ rest)) = true := by
      intro hp
      have h1 : pat <+: c :: cs ++ pat ++ rest := by
        simpa using List.isPrefixOf_iff_prefix.mp hp
      have h2 : c :: cs ++ pat.dropLast <+: c :: cs ++ pat ++ rest := by
        rw [List.append_assoc]
        exact (List.prefix_append_right_inj _).mpr
          ((List.dropLast_prefix pat).trans (List.prefix_append _ _))
      exact h (List.prefix_of_prefix_length_le h1 h2 hlen).isInfix
    simp only [List.cons_append]
    unfold codeAfterFirst
    rw [if_neg hp]
    exact ih (fun hin => h (hin.trans (List.suffix_cons c _).isInfix))

theorem azPairRef_some (a : Char) :
    azPairRef (some a) = axisPair (LOW, HIGH) (HIGH, LOW) a := by
  unfold azPairRef axisPair
  split <;> simp_all [HIGH, LOW]

theorem elPairRef_some (a : Char) :
    elPairRef (some a) = axisPair (HIGH, LOW) (LOW, HIGH) a := by
  unfold elPairRef axisPair
  split <;> simp_all [HIGH, LOW]

theorem axisOf_eq_ref (marker : String) (hlen : marker.data.length = 2)
    (hc : cstr marker.data = marker.data)
    (pos neg : Bool × Bool) (ref : Option Char → Bool × Bool)
    (hnone : ref none = (HIGH, HIGH)) (hsome : ∀ a, ref (some a) = axisPair pos neg a)
    (s : String) :
    axisOf marker pos neg s = ref (codeAfterFirst marker.data (cstr s.data)) := by
  have hne : marker.data ≠ [] := by
    intro h0; rw [h0] at hlen; exact absurd hlen (by decide)
  have hm0 := marker_not_nul marker hc
  rcases marker_cases marker s hne hc with hi | ⟨p, hs, hfirst, hp⟩ | ⟨a, p, q, hs, hfirst, hp⟩
  · rw [axisOf_not_found marker pos neg s hi]
    rw [indexOf_eq s marker hne hc] at hi
    rw [codeAfterFirst_absent _ _ (indexOfFrom_absent_conv _ _ _ hne hi), hnone]
  · rw [axisOf_end marker pos neg s p hlen hc hs hfirst hp]
    have hcs : cstr s.data = p ++ marker.data ++ [] := by
      rw [hs, cstr_append_of_not_mem _ _ hp, cstr_eq_self _ hm0, List.append_nil]
    rw [hcs, codeAfterFirst_first _ _ _ hne hfirst]
    exact hnone.symm
  · rw [axisOf_code marker pos neg s a hlen hc ⟨p, q, hs, hfirst, hp⟩]
    have hcs : cstr s.data = p ++ marker.data ++ cstr (a :: q) := by
      rw [hs, List.append_assoc, cstr_append_of_not_mem _ _ hp,
        cstr_append_of_not_mem _ _ hm0, List.append_assoc]
    rw [hcs, codeAfterFirst_first _ _ _ hne hfirst]
    by_cases ha : a = Char.ofNat 0
    · subst ha
      have : cstr (Char.ofNat 0 :: q) = [] := rfl
      rw [this, List.head?_nil, hnone]
      exact axisPair_other pos neg _ (by decide)
    · have ha2 : (a != Char.ofNat 0) = true := by simpa using ha
      have : cstr (a :: q) = a :: cstr q := by
        unfold cstr
        simp only [List.takeWhile_cons, ha2, if_true]
      rw [this, List.head?_cons]
      exact (hsome a).symm

/-- C18 (as the code has it): on every line `parseCommand` equals the
reference definition applied to the part of the line before its first NUL
character, so on every line without a NUL character it equals the reference
definition on the line itself: each axis pair is read from the character
immediately after the first occurrence of its marker (`none` when the marker
is absent or ends the text), by the tables `(false, true)`, `(true, false)`,
`(false, false)`, `(true, true)` for azimuth and `(true, false)`,
`(false, true)`, `(false, false)`, `(true, true)` for elevation.  Two lines
whose first `AZ` marker, with no NUL character before it, is followed by the
same character have the same azimuth pair, whatever comes later; likewise for
`EL`. -/
theorem parseCommand_eq_ref :
    (∀ s : String, parseCommand s = parseCommandRef (String.mk (cstr s.data))) ∧
    (∀ s : String, Char.ofNat 0 ∉ s.data → parseCommand s = parseCommandRef s) ∧
    (∀ (s t : String) (a : Char), ReadCode "AZ" s a → ReadCode "AZ" t a →
      ((parseCommand s).az_cw, (parseCommand s).az_ccw)
        = ((parseCommand t).az_cw, (parseCommand t).az_ccw)) ∧
    (∀ (s t : String) (a : Char), ReadCode "EL" s a → ReadCode "EL" t a →
      ((parseCommand s).alt_up, (parseCommand s).alt_down)
        = ((parseCommand t).alt_up, (parseCommand t).alt_down)) := by
  have key : ∀ s : String, parseCommand s = parseCommandRef (String.mk (cstr s.data)) := by
    intro s
    apply state_eq_of_pairs
    · rw [parseCommand_az_axisOf,
        axisOf_eq_ref "AZ" rfl rfl _ _ azPairRef rfl azPairRef_some s]
      rfl
    · rw [parseCommand_el_axisOf,
        axisOf_eq_ref "EL" rfl rfl _ _ elPairRef rfl elPairRef_some s]
      rfl
  refine ⟨key, fun s hs => ?_, fun s t a hs ht => ?_, fun s t a hs ht => ?_⟩
  · rw [key s, cstr_eq_self _ hs]
  · rw [az_of_code s a hs, az_of_code t a ht]
  · rw [el_of_code s a hs, el_of_code t a ht]

/-- C18 applied to the lines `AZ1` and `AZ1 AZ2 AZ0`, and to `EL2` and
`EL2EL1`: the later markers do not change the pair; and to the line `AZ1 EL2`,
which has no NUL character. -/
theorem parseCommand_eq_ref_witness :
    ((ReadCode "AZ" "AZ1" '1' ∧ ReadCode "AZ" "AZ1 AZ2 AZ0" '1') ∧
      ((parseCommand "AZ1").az_cw, (parseCommand "AZ1").az_ccw)
        = ((parseCommand "AZ1 AZ2 AZ0").az_cw, (parseCommand "AZ1 AZ2 AZ0").az_ccw)) ∧
    ((ReadCode "EL" "EL2" '2' ∧ ReadCode "EL" "EL2EL1" '2') ∧
      ((parseCommand "EL2").alt_up, (parseCommand "EL2").alt_down)
        = ((parseCommand "EL2EL1").alt_up, (parseCommand "EL2EL1").alt_down)) ∧
    (Char.ofNat 0 ∉ "AZ1 EL2".data ∧ parseCommand "AZ1 EL2" = parseCommandRef "AZ1 EL2") :=
  have h1 : ReadCode "AZ" "AZ1" '1' := ⟨[], [], rfl, by decide, by simp⟩
  have h2 : ReadCode "AZ" "AZ1 AZ2 AZ0" '1' := ⟨[], " AZ2 AZ0".data, rfl, by decide, by simp⟩
  have h3 : ReadCode "EL" "EL2" '2' := ⟨[], [], rfl, by decide, by simp⟩
  have h4 : ReadCode "EL" "EL2EL1" '2' := ⟨[], "EL1".data, rfl, by decide, by simp⟩
  have h5 : Char.ofNat 0 ∉ "AZ1 EL2".data := by decide
  ⟨⟨⟨h1, h2⟩, parseCommand_eq_ref.2.2.1 _ _ _ h1 h2⟩,
    ⟨⟨h3, h4⟩, parseCommand_eq_ref.2.2.2 _ _ _ h3 h4⟩,
    ⟨h5, parseCommand_eq_ref.2.1 _ h5⟩⟩

/-- C18, as stated, fails on the line made of a NUL character followed by
`AZ1`: the search stops at the NUL character, so `parseCommand` returns all four
fields `true`, while the reference definition reads the `'1'` after the first
`AZ` and gives the azimuth pair `(false, true)`. -/
theorem parseCommand_eq_ref_counterexample :
    parseCommand (String.mk [Char.ofNat 0, 'A', 'Z', '1']) = ⟨true, true, true, true⟩ ∧
    parseCommandRef (String.mk [Char.ofNat 0, 'A', 'Z', '1']) = ⟨false, true, true, true⟩ ∧
    parseCommand (String.mk [Char.ofNat 0, 'A', 'Z', '1'])
      ≠ parseCommandRef (String.mk [Char.ofNat 0, 'A', 'Z', '1']) := by
  decide

theorem isspace_not_mem (c : Char) (hc : isspace c = true) :
    c ∉ ['A', 'E', Char.ofNat 0] ∧ c ∉ ['Z', 'L'] ∧ c ∉ ['0', '1', '2'] := by
  refine ⟨?_, ?_, ?_⟩ <;>
  · intro hm
    simp only [List.mem_cons, List.mem_singleton, List.not_mem_nil, or_false] at hm
    rcases hm with rfl | rfl | rfl <;> exact absurd hc (by decide)

theorem trim_split (s : String) :
    s.data = s.data.takeWhile isspace ++ (trim s).data
      ++ ((s.data.dropWhile isspace).reverse.takeWhile isspace).reverse := by
  have h1 : s.data = s.data.takeWhile isspace ++ s.data.dropWhile isspace :=
    (List.takeWhile_append_dropWhile isspace s.data).symm
  have h2 : s.data.dropWhile isspace
      = ((s.data.dropWhile isspace).reverse.dropWhile isspace).reverse
        ++ ((s.data.dropWhile isspace).reverse.takeWhile isspace).reverse := by
    rw [← List.reverse_append, List.takeWhile_append_dropWhile, List.reverse_reverse]
  show s.data = s.data.takeWhile isspace
      ++ ((s.data.dropWhile isspace).reverse.dropWhile isspace).reverse
      ++ ((s.data.dropWhile isspace).reverse.takeWhile isspace).reverse
  rw [List.append_assoc, ← h2]
  exact h1

/-- C19: for every line `s`, `parseCommand` applied to `s` with its leading
and trailing whitespace removed, as `loop` does before parsing, returns the
same state as `parseCommand` applied to `s` itself. -/
theorem parseCommand_trim (s : String) : parseCommand (trim s) = parseCommand s := by
  symm
  apply parseCommand_pad s (trim s) _ _ (trim_split s)
  · intro c hc
    exact (isspace_not_mem c (List.mem_takeWhile_imp hc)).1
  · intro c hc
    have hc2 : isspace c = true := List.mem_takeWhile_imp (List.mem_reverse.mp hc)
    exact ⟨(isspace_not_mem c hc2).2.1, (isspace_not_mem c hc2).2.2⟩

/-! ## The writes of a line and the levels before them -/

theorem loopUpTo_zero_level (line : String) (b : Board) (q : Nat) :
    (loopUpTo 0 line b).level q = b.level q := rfl

/-- From a pair of pins that are both LOW, the writes of a state that drives
one direction never pass through both pins HIGH. -/
theorem upTo_pair_from_stopped (state : ControlState) (b : Board) (k : Nat) :
    (b.level 1 = false → b.level 2 = false → state.az_cw ≠ state.az_ccw →
      ¬ ((executeControlUpTo k state b).level 1 = true ∧
          (executeControlUpTo k state b).level 2 = true)) ∧
    (b.level 3 = false → b.level 4 = false → state.alt_up ≠ state.alt_down →
      ¬ ((executeControlUpTo k state b).level 3 = true ∧
          (executeControlUpTo k state b).level 4 = true)) := by
  obtain ⟨a1, a2, e1, e2⟩ := state
  constructor
  · intro h1 h2 hne
    revert hne
    rcases k with _ | _ | _ | _ | k <;> cases a1 <;> cases a2 <;>
      simp [executeControlUpTo, controlWrites, digitalWrite, AZ_CW_PIN, AZ_CCW_PIN,
        ALT_UP_PIN, ALT_DOWN_PIN, h1, h2]
  · intro h3 h4 hne
    revert hne
    rcases k with _ | _ | _ | _ | k <;> cases e1 <;> cases e2 <;>
      simp [executeControlUpTo, controlWrites, digitalWrite, AZ_CW_PIN, AZ_CCW_PIN,
        ALT_UP_PIN, ALT_DOWN_PIN, h3, h4]

/-- C15 (as the code has it): only the first line after `setup` is applied
from an all-stopped baseline.  When `setup` returns, the four pins are LOW
immediately before the writes of the first line; and whenever both pins of an
axis are LOW immediately before the writes of a line that drives one direction
of that axis, at no point between the individual writes of `executeControl` are
both pins of that axis HIGH.  For a later line no baseline is restored: the
levels immediately before its writes are the fields parsed from the previous
line. -/
theorem first_line_from_stopped (b : Board) (line : String) (k : Nat) :
    ((loopUpTo 0 line (setup b)).level 1 = false ∧ (loopUpTo 0 line (setup b)).level 2 = false ∧
      (loopUpTo 0 line (setup b)).level 3 = false ∧
      (loopUpTo 0 line (setup b)).level 4 = false) ∧
    (∀ c : Board, c.level 1 = false → c.level 2 = false →
      (parseCommand (trim line)).az_cw ≠ (parseCommand (trim line)).az_ccw →
      ¬ ((loopUpTo k line c).level 1 = true ∧ (loopUpTo k line c).level 2 = true)) ∧
    (∀ c : Board, c.level 3 = false → c.level 4 = false →
      (parseCommand (trim line)).alt_up ≠ (parseCommand (trim line)).alt_down →
      ¬ ((loopUpTo k line c).level 3 = true ∧ (loopUpTo k line c).level 4 = true)) ∧
    (∀ (c : Board) (prev : String),
      (loopUpTo 0 line (loop (some prev) c)).level 1 = (parseCommand (trim prev)).az_cw ∧
      (loopUpTo 0 line (loop (some prev) c)).level 2 = (parseCommand (trim prev)).az_ccw ∧
      (loopUpTo 0 line (loop (some prev) c)).level 3 = (parseCommand (trim prev)).alt_up ∧
      (loopUpTo 0 line (loop (some prev) c)).level 4
        = (parseCommand (trim prev)).alt_down) := by
  refine ⟨?_, ?_, ?_, ?_⟩
  · simp [loopUpTo_zero_level, setup, emit, digitalWrite, AZ_CW_PIN, AZ_CCW_PIN, ALT_UP_PIN,
      ALT_DOWN_PIN, LOW]
  · intro c h1 h2 hne
    exact (upTo_pair_from_stopped (parseCommand (trim line)) _ k).1 h1 h2 hne
  · intro c h3 h4 hne
    exact (upTo_pair_from_stopped (parseCommand (trim line)) _ k).2 h3 h4 hne
  · intro c prev
    simp [loopUpTo_zero_level, loop, emit, executeControl, digitalWrite, AZ_CW_PIN, AZ_CCW_PIN,
      ALT_UP_PIN, ALT_DOWN_PIN]

/-- C15 applied to the first line `AZ1 EL2` after `setup`, at the board after
its first write. -/
theorem first_line_from_stopped_witness :
    (((setup ⟨fun _ => true, []⟩).level 1 = false ∧
        (setup ⟨fun _ => true, []⟩).level 2 = false ∧
        (parseCommand (trim "AZ1 EL2")).az_cw ≠ (parseCommand (trim "AZ1 EL2")).az_ccw) ∧
      ¬ ((loopUpTo 1 "AZ1 EL2" (setup ⟨fun _ => true, []⟩)).level 1 = true ∧
          (loopUpTo 1 "AZ1 EL2" (setup ⟨fun _ => true, []⟩)).level 2 = true)) ∧
    (((setup ⟨fun _ => true, []⟩).level 3 = false ∧
        (setup ⟨fun _ => true, []⟩).level 4 = false ∧
        (parseCommand (trim "AZ1 EL2")).alt_up ≠ (parseCommand (trim "AZ1 EL2")).alt_down) ∧
      ¬ ((loopUpTo 1 "AZ1 EL2" (setup ⟨fun _ => true, []⟩)).level 3 = true ∧
          (loopUpTo 1 "AZ1 EL2" (setup ⟨fun _ => true, []⟩)).level 4 = true)) :=
  ⟨⟨⟨rfl, rfl, by decide⟩,
      (first_line_from_stopped ⟨fun _ => true, []⟩ "AZ1 EL2" 1).2.1
        (setup ⟨fun _ => true, []⟩) rfl rfl (by decide)⟩,
    ⟨⟨rfl, rfl, by decide⟩,
      (first_line_from_stopped ⟨fun _ => true, []⟩ "AZ1 EL2" 1).2.2.1
        (setup ⟨fun _ => true, []⟩) rfl rfl (by decide)⟩⟩

/-- C15, as stated, fails on the run `setup`, `AZ1`, `AZ2`: the second line
drives one direction of the azimuth axis (`az_cw = true`, `az_ccw = false`),
yet immediately before its writes the azimuth pins are `(LOW, HIGH)`, not
stopped, and after its first write both azimuth pins are HIGH. -/
theorem second_line_not_from_stopped_counterexample :
    run ["AZ1", "AZ2"] ⟨fun _ => false, []⟩
      = emit (Event.delay 10) (loopUpTo 4 "AZ2" (run ["AZ1"] ⟨fun _ => false, []⟩)) ∧
    ((parseCommand (trim "AZ2")).az_cw = true ∧ (parseCommand (trim "AZ2")).az_ccw = false) ∧
    ((loopUpTo 0 "AZ2" (run ["AZ1"] ⟨fun _ => false, []⟩)).level 1 = false ∧
      (loopUpTo 0 "AZ2" (run ["AZ1"] ⟨fun _ => false, []⟩)).level 2 = true) ∧
    ((loopUpTo 1 "AZ2" (run ["AZ1"] ⟨fun _ => false, []⟩)).level 1 = true ∧
      (loopUpTo 1 "AZ2" (run ["AZ1"] ⟨fun _ => false, []⟩)).level 2 = true) := by
  refine ⟨rfl, ⟨by decide, by decide⟩, ⟨by decide, by decide⟩, ⟨by decide, by decide⟩⟩

end RelayControl
